import Mathlib

set_option maxRecDepth 8000

/-!
Verification of the NLP question-answering core (`llm_qa_core.py`, `app.py`).

The Python text pipeline is embedded over `List Char`.  Unicode-dependent
character classes (`\w` under `re.UNICODE`, `str.lower`) are modelled on their
ASCII fragment, matching Lean's `Char.toLower`; `str.isspace` and
`str.splitlines` follow CPython's documented character sets.
-/

namespace NLPQA

/-- Shorthand: the character list of a string literal. -/
def cs (s : String) : List Char := s.toList

/-- CPython `str.isspace` / bare `str.strip` character class: space, tab,
newline, carriage return, vertical tab, form feed, the file/group/record/unit
separators, next line, and the Unicode `Zs` spaces and line/paragraph
separators. -/
def isPySpace (c : Char) : Bool :=
  c.toNat = 32 || c.toNat = 9 || c.toNat = 10 || c.toNat = 13 ||
  c.toNat = 11 || c.toNat = 12 ||
  (0x1c ≤ c.toNat && c.toNat ≤ 0x1f) || c.toNat = 0x85 || c.toNat = 0xa0 ||
  c.toNat = 0x1680 || (0x2000 ≤ c.toNat && c.toNat ≤ 0x200a) ||
  c.toNat = 0x2028 || c.toNat = 0x2029 || c.toNat = 0x202f ||
  c.toNat = 0x205f || c.toNat = 0x3000

/-- The `\w` class of `re` (ASCII fragment): letters, digits, underscore. -/
def isWordChar (c : Char) : Bool :=
  c.isAlphanum || c = '_'

/-- Python `str.strip()` with no argument: drop `isPySpace` characters from
both ends. -/
def stripChars (l : List Char) : List Char :=
  ((l.dropWhile isPySpace).reverse.dropWhile isPySpace).reverse

/-- Extend the first piece of a piece list by a leading character. -/
def consHead (c : Char) : List (List Char) → List (List Char)
  | [] => [[c]]
  | t :: ts => (c :: t) :: ts

/-- `re.findall(r"\b\w+\b", l)`: the maximal runs of word characters of `l`,
in order.  A word character is merged into the following token when the next
character is also a word character, so tokens are exactly the maximal runs. -/
def findallWords : List Char → List (List Char)
  | [] => []
  | [c] => if isWordChar c then [[c]] else []
  | c :: d :: rest =>
    if isWordChar c then
      if isWordChar d then consHead c (findallWords (d :: rest))
      else [c] :: findallWords (d :: rest)
    else findallWords (d :: rest)

/-- Spec-side comparison point for the C6 invariant, following the spec's
words "`lowered` split on non-word boundaries": `re.split(r"\W+", l)`, the
pieces of `l` between maximal non-word runs, with an empty piece at an end
that touches a non-word run (so empty pieces may appear, unlike
`findallWords`). -/
def splitNonWord : List Char → List (List Char)
  | [] => [[]]
  | c :: rest =>
    if isWordChar c then consHead c (splitNonWord rest)
    else
      match rest with
      | [] => [[], []]
      | d :: _ => if isWordChar d then [] :: splitNonWord rest else splitNonWord rest

/-- Python `sep.join(pieces)` for a one-character separator. -/
def joinSep (sep : Char) : List (List Char) → List Char
  | [] => []
  | [l] => l
  | l :: ls => l ++ sep :: joinSep sep ls

/-- Container for the artifacts produced by preprocessing
(`ProcessedQuestion` dataclass). -/
structure ProcessedQuestion where
  original : List Char
  lowered : List Char
  tokens : List (List Char)
  processed_text : List Char
deriving Repr, DecidableEq

/-- `QuestionProcessor.preprocess`. -/
def preprocess (question : List Char) : ProcessedQuestion :=
  let cleaned := stripChars question
  let lowered := cleaned.map Char.toLower
  let tokens := findallWords lowered
  let processed_text := joinSep ' ' tokens
  { original := cleaned
    lowered := lowered
    tokens := tokens
    processed_text := processed_text }

/-- The `[ \t]` class of `textwrap.dedent`'s margin regexes. -/
def isIndentChar (c : Char) : Bool := c.toNat = 32 || c.toNat = 9

/-- Split a text on newline characters (the line structure `re.MULTILINE`
sees); always returns at least one (possibly empty) line. -/
def splitOnNl : List Char → List (List Char)
  | [] => [[]]
  | c :: rest =>
    if c = '\n' then [] :: splitOnNl rest
    else consHead c (splitOnNl rest)

/-- `textwrap`'s `_whitespace_only_re.sub('', ...)` on one line: a non-empty
all-`[ \t]` line is replaced by the empty line. -/
def normWsLine (l : List Char) : List Char :=
  if !l.isEmpty && l.all isIndentChar then [] else l

/-- `textwrap`'s `_leading_whitespace_re` on one line: the leading `[ \t]` run,
counted only when the line has a character outside `[ \t]`. -/
def lineIndent (l : List Char) : Option (List Char) :=
  if (l.dropWhile isIndentChar).isEmpty then none
  else some (l.takeWhile isIndentChar)

/-- Longest common prefix of two character lists (the margin-merging loop of
`textwrap.dedent`). -/
def commonPre : List Char → List Char → List Char
  | x :: xs, y :: ys => if x = y then x :: commonPre xs ys else []
  | _, _ => []

/-- The margin fold of `textwrap.dedent` over the collected indents. -/
def computeMargin (indents : List (List Char)) : Option (List Char) :=
  indents.foldl
    (fun m i =>
      match m with
      | none => some i
      | some m0 => some (commonPre m0 i))
    none

/-- `re.sub(r'(?m)^' + margin, '', ...)` on a single line. -/
def removeMargin (m : List Char) (l : List Char) : List Char :=
  if m.isPrefixOf l then l.drop m.length else l

/-- `textwrap.dedent`. -/
def dedent (text : List Char) : List Char :=
  let lines := (splitOnNl text).map normWsLine
  match computeMargin (lines.filterMap lineIndent) with
  | none => joinSep '\n' lines
  | some m =>
    if m.isEmpty then joinSep '\n' lines
    else joinSep '\n' (lines.map (removeMargin m))

/-- CPython `str.splitlines` line-boundary characters. -/
def isLineBoundary (c : Char) : Bool :=
  c.toNat = 10 || c.toNat = 13 || c.toNat = 11 || c.toNat = 12 ||
  c.toNat = 0x1c || c.toNat = 0x1d || c.toNat = 0x1e || c.toNat = 0x85 ||
  c.toNat = 0x2028 || c.toNat = 0x2029

/-- Python `str.splitlines()` (`keepends=False`); `\r\n` counts as one
boundary, and a trailing boundary opens no extra line. -/
def pySplitlines : List Char → List (List Char)
  | [] => []
  | '\r' :: '\n' :: rest => [] :: pySplitlines rest
  | c :: rest =>
    if isLineBoundary c then [] :: pySplitlines rest
    else consHead c (pySplitlines rest)

/-- The f-string of `LLMQAService.build_prompt` before dedenting: its literal
lines joined by newlines, with the two interpolated fields. -/
def promptRawText (original processed : List Char) : List Char :=
  joinSep '\n'
    [ []
    , cs "            You are a helpful university-level teaching assistant. Answer the user's"
    , cs "            question clearly and concisely. Cite key facts when appropriate and"
    , cs "            mention assumptions if the question lacks detail."
    , []
    , cs "            Original question: " ++ original
    , cs "            Normalized question: " ++ processed
    , []
    , cs "            Answer:"
    , cs "            " ]

/-- `LLMQAService.build_prompt`. -/
def buildPrompt (processed : ProcessedQuestion) : List Char :=
  stripChars (dedent (promptRawText processed.original processed.processed_text))

/-- The f-string of `LLMClient._offline_response` before dedenting, given the
interpolated `preview[:120]`. -/
def offlineRawText (preview : List Char) : List Char :=
  joinSep '\n'
    [ []
    , cs "            [Offline Response]"
    , cs "            Unable to reach the configured LLM provider. Please verify that an API key"
    , cs "            is available (set OPENAI_API_KEY or LLM_API_KEY). Last prompt line:"
    , cs "            \"" ++ preview ++ cs "...\""
    , cs "            " ]

/-- `LLMClient._offline_response`; `none` models the uncaught `IndexError`
of `prompt.splitlines()[-1]` on a prompt with no lines. -/
def offlineResponse (prompt : List Char) : Option (List Char) :=
  match (pySplitlines prompt).getLast? with
  | none => none
  | some lastLine => some (stripChars (dedent (offlineRawText (lastLine.take 120))))

/-- Python `a or b` where `a` and `b` are `None` or a string (`None` and the
empty string are falsy). -/
def pyOr (a b : Option (List Char)) : Option (List Char) :=
  match a with
  | some s => if s.isEmpty then b else some s
  | none => b

/-- Python `a or b` where `b` is a (present) string. -/
def pyOrStr (a : Option (List Char)) (b : List Char) : List Char :=
  match a with
  | some s => if s.isEmpty then b else s
  | none => b

/-- The value of `float(os.getenv("LLM_TEMPERATURE", temperature))`, kept
symbolic: `ofEnvString s` is `float(s)` applied to the environment string `s`,
`ofNumber t` is `float(t)` on the numeric constructor argument `t` (the
identity on numbers; literals such as `0.2` are decimal, so `ℚ`). -/
inductive TempValue where
  | ofEnvString (raw : List Char)
  | ofNumber (t : ℚ)
deriving Repr, DecidableEq

/-- The state of an `LLMClient` after `__init__`. -/
structure LLMClient where
  model : List Char
  api_key : Option (List Char)
  api_base : Option (List Char)
  temperature : TempValue
deriving Repr, DecidableEq

/-- `LLMClient.__init__`: each field resolved from the keyword argument, the
environment (`env k = none` models an unset variable) and the defaults, with
Python `or` semantics.  `temperature` feeds the constructor argument to
`os.getenv` as its *default*, so the environment value is used whenever
`LLM_TEMPERATURE` is set. -/
def LLMClient.init (model api_key api_base : Option (List Char))
    (temperature : ℚ) (env : List Char → Option (List Char)) : LLMClient :=
  { model := pyOrStr model ((env (cs "LLM_MODEL")).getD (cs "gpt-4o-mini"))
    api_key := pyOr (pyOr api_key (env (cs "OPENAI_API_KEY"))) (env (cs "LLM_API_KEY"))
    api_base := pyOr api_base (env (cs "OPENAI_BASE_URL"))
    temperature :=
      match env (cs "LLM_TEMPERATURE") with
      | some s => TempValue.ofEnvString s
      | none => TempValue.ofNumber temperature }

/-- `LLMClient.is_configured`: `bool(self.api_key and OpenAI is not None)`.
`openAIAvailable` models whether the optional `openai` import succeeded. -/
def isConfigured (c : LLMClient) (openAIAvailable : Bool) : Bool :=
  (match c.api_key with
   | some s => !s.isEmpty
   | none => false) && openAIAvailable

/-- Outcome of the provider interaction inside the `try` block of
`generate_response`: either the `response.output` block list (each entry is
the block's `text.value` when the block carries one, `none` for a block
without a usable `text`) or a raised exception's `str(exc)` message. -/
inductive ProviderOutcome where
  | success (blocks : List (Option (List Char)))
  | failure (message : List Char)
deriving Repr, DecidableEq

/-- The list comprehension of `generate_response`: keep each block's
`text.value` when present and truthy (non-empty). -/
def textChunks (blocks : List (Option (List Char))) : List (List Char) :=
  blocks.filterMap
    (fun b =>
      match b with
      | some v => if v.isEmpty then none else some v
      | none => none)

/-- `LLMClient.generate_response`.  `none` models an uncaught exception (only
the offline path outside the `try` can raise one).  An exception raised by
`_offline_response` *inside* the `try` (empty joined text and a prompt with no
lines) is caught and stringified like any other. -/
def generateResponse (c : LLMClient) (openAIAvailable : Bool)
    (provider : ProviderOutcome) (prompt : List Char) : Option (List Char) :=
  if !isConfigured c openAIAvailable then offlineResponse prompt
  else
    match provider with
    | .failure msg => some (cs "[LLM Error] Unable to fetch response: " ++ msg)
    | .success blocks =>
      let joined := stripChars (joinSep '\n' (textChunks blocks))
      if joined.isEmpty then
        match offlineResponse prompt with
        | some r => some r
        | none => some (cs "[LLM Error] Unable to fetch response: list index out of range")
      else some joined

/-- The result dict of `LLMQAService.answer_question`. -/
structure AnswerResult where
  original_question : List Char
  processed_question : List Char
  tokens : List (List Char)
  prompt : List Char
  answer : List Char
deriving Repr, DecidableEq

/-- `LLMQAService.answer_question`: preprocess, build the prompt, generate the
answer, bundle the result.  `none` propagates an uncaught exception from
`generate_response`. -/
def answerQuestion (c : LLMClient) (openAIAvailable : Bool)
    (provider : ProviderOutcome) (question : List Char) : Option AnswerResult :=
  let processed := preprocess question
  let prompt := buildPrompt processed
  (generateResponse c openAIAvailable provider prompt).map
    (fun answer =>
      { original_question := processed.original
        processed_question := processed.processed_text
        tokens := processed.tokens
        prompt := prompt
        answer := answer })

/-- A JSON-derived Python value as the Flask handler sees it. -/
inductive PyVal where
  | pynone
  | pybool (b : Bool)
  | pynum (n : ℚ)
  | pystr (s : List Char)
  | pylist (xs : List PyVal)
  | pydict (kvs : List (List Char × PyVal))

/-- Python truthiness of a JSON-derived value. -/
def truthy : PyVal → Bool
  | .pynone => false
  | .pybool b => b
  | .pynum n => n ≠ 0
  | .pystr s => !s.isEmpty
  | .pylist xs => !xs.isEmpty
  | .pydict kvs => !kvs.isEmpty

/-- `dict.get`: the value of the first matching key, else `None`. -/
def dictGet (kvs : List (List Char × PyVal)) (k : List Char) : Option PyVal :=
  (kvs.find? (fun p => p.1 == k)).map Prod.snd

/-- The two responses `api_ask` can produce: HTTP 400 with
`{"error": "Question is required."}`, or HTTP 200 with the four fields. -/
inductive ApiResponse where
  | badRequest
  | ok (question processed_question : List Char)
      (tokens : List (List Char)) (answer : List Char)
deriving Repr, DecidableEq

/-- The `/api/ask` handler (`api_ask` in `app.py`).  `body` is the value of
`request.get_json(silent=True)` (`none` for an unparsable body); the result
`none` models an uncaught exception (HTTP 500), e.g. `.strip()` or `.get` on a
non-string/non-dict. -/
def apiAsk (c : LLMClient) (openAIAvailable : Bool) (provider : ProviderOutcome)
    (body : Option PyVal) : Option ApiResponse :=
  let data : PyVal :=
    match body with
    | none => .pydict []
    | some v => if truthy v then v else .pydict []
  match data with
  | .pydict kvs =>
    let qval : PyVal :=
      match dictGet kvs (cs "question") with
      | none => .pystr []
      | some v => if truthy v then v else .pystr []
    match qval with
    | .pystr s =>
      let question := stripChars s
      if question.isEmpty then some .badRequest
      else
        match answerQuestion c openAIAvailable provider question with
        | some r => some (.ok question r.processed_question r.tokens r.answer)
        | none => none
    | _ => none
  | _ => none

/-! Character-level facts bridging the embedded classes, `Char.toLower` and
code points. -/

/-- Two characters are equal exactly when their code points are. -/
theorem char_eq_iff_toNat {c d : Char} : c = d ↔ c.toNat = d.toNat := by
  constructor
  · rintro rfl; rfl
  · intro h; exact Char.ext (UInt32.ext (by simpa [Char.toNat] using h))

/-- Code-point characterization of `isWordChar`. -/
theorem isWordChar_iff (c : Char) :
    isWordChar c = true ↔
      (65 ≤ c.toNat ∧ c.toNat ≤ 90) ∨ (97 ≤ c.toNat ∧ c.toNat ≤ 122) ∨
      (48 ≤ c.toNat ∧ c.toNat ≤ 57) ∨ c.toNat = 95 := by
  have h95 : (c = '_') ↔ c.toNat = 95 := char_eq_iff_toNat
  simp only [isWordChar, Char.isAlphanum, Char.isAlpha, Char.isUpper, Char.isLower,
    Char.isDigit, Bool.or_eq_true, Bool.and_eq_true, decide_eq_true_eq, ge_iff_le, h95]
  simp [UInt32.le_def, BitVec.le_def, Char.toNat, UInt32.toNat]
  tauto

/-- `Char.toLower` in terms of code points. -/
theorem toNat_toLower (c : Char) :
    c.toLower.toNat = if 65 ≤ c.toNat ∧ c.toNat ≤ 90 then c.toNat + 32 else c.toNat := by
  by_cases h : 65 ≤ c.toNat ∧ c.toNat ≤ 90
  · have h1 : c.toLower = Char.ofNat (c.toNat + 32) := by
      simp [Char.toLower, ge_iff_le, h]
    have hv : (c.toNat + 32).isValidChar := Or.inl (by omega)
    rw [h1, if_pos h, Char.ofNat, dif_pos hv]
    simp [Char.ofNatAux, Char.toNat, UInt32.toNat]
  · have h1 : c.toLower = c := by
      simp only [Char.toLower, ge_iff_le]
      rw [if_neg h]
    rw [h1, if_neg h]

/-- `Char.toLower` fixes characters outside the upper-case ASCII range. -/
theorem toLower_eq_self (c : Char) (h : ¬ (65 ≤ c.toNat ∧ c.toNat ≤ 90)) :
    c.toLower = c := by
  simp only [Char.toLower, ge_iff_le]
  rw [if_neg h]

/-- Lowercasing is idempotent. -/
theorem toLower_toLower (c : Char) : c.toLower.toLower = c.toLower := by
  apply toLower_eq_self
  rw [toNat_toLower]
  by_cases h : 65 ≤ c.toNat ∧ c.toNat ≤ 90
  · rw [if_pos h]; omega
  · rw [if_neg h]; omega

/-- Lowercasing preserves word characters. -/
theorem isWordChar_toLower (c : Char) (h : isWordChar c = true) :
    isWordChar c.toLower = true := by
  rw [isWordChar_iff] at h ⊢
  rw [toNat_toLower]
  by_cases h2 : 65 ≤ c.toNat ∧ c.toNat ≤ 90
  · rw [if_pos h2]; omega
  · rw [if_neg h2]; omega

/-- Lowercasing fixes non-word characters. -/
theorem toLower_eq_self_of_nonword (c : Char) (h : ¬ isWordChar c = true) :
    c.toLower = c := by
  apply toLower_eq_self
  rw [isWordChar_iff] at h
  intro hc
  exact h (Or.inl hc)

/-- A word character is not Python whitespace. -/
theorem not_pySpace_of_word (c : Char) (h : isWordChar c = true) :
    isPySpace c = false := by
  rw [isWordChar_iff] at h
  simp only [isPySpace, Bool.or_eq_false_iff, Bool.and_eq_false_iff,
    decide_eq_false_iff_not, Nat.not_le]
  omega

/-- A word character is not a `[ \t]` indent character. -/
theorem not_indent_of_word (c : Char) (h : isWordChar c = true) :
    isIndentChar c = false := by
  rw [isWordChar_iff] at h
  simp only [isIndentChar, Bool.or_eq_false_iff, decide_eq_false_iff_not]
  omega

/-- A word character is not a newline. -/
theorem word_ne_nl (c : Char) (h : isWordChar c = true) : ¬ c = '\n' := by
  rw [isWordChar_iff] at h
  rw [char_eq_iff_toNat]
  show ¬ c.toNat = 10
  omega

/-! Facts about `findallWords`. -/

/-- `findallWords` takes the maximal word run at the head and recurses past it. -/
theorem findallWords_cons_word (c : Char) (rest : List Char) (h : isWordChar c) :
    findallWords (c :: rest) =
      (c :: rest.takeWhile isWordChar) :: findallWords (rest.dropWhile isWordChar) := by
  induction rest generalizing c with
  | nil => simp [findallWords, h]
  | cons d rest2 ih =>
    by_cases hd : isWordChar d
    · rw [show findallWords (c :: d :: rest2) =
          consHead c (findallWords (d :: rest2)) by simp [findallWords, h, hd]]
      rw [ih d hd]
      simp [consHead, List.takeWhile_cons, List.dropWhile_cons, hd]
    · have : findallWords (c :: d :: rest2) = [c] :: findallWords (d :: rest2) := by
        simp [findallWords, h, hd]
      rw [this]
      simp [List.takeWhile_cons, List.dropWhile_cons, hd]

/-- `findallWords` skips a non-word head character. -/
theorem findallWords_cons_nonword (c : Char) (rest : List Char) (h : ¬ isWordChar c) :
    findallWords (c :: rest) = findallWords rest := by
  cases rest with
  | nil => simp [findallWords, h]
  | cons d rest2 => simp [findallWords, h]

example : (preprocess (cs "What is NLP?")).tokens = [cs "what", cs "is", cs "nlp"] := by decide
example : (preprocess (cs "What is NLP?")).processed_text = cs "what is nlp" := by decide
example : (preprocess (cs "  Hi there ")).original = cs "Hi there" := by decide
example : (preprocess (cs " .!? ")).tokens = [] := by decide
example : pySplitlines (cs "a\nb") = [cs "a", cs "b"] := by decide
example : pySplitlines (cs "a\r\nb\n") = [cs "a", cs "b"] := by decide
example : pySplitlines (cs "") = [] := by decide
example : pySplitlines (cs "\n") = [[]] := by decide
example : offlineResponse (cs "") = none := by decide

/-! Membership lemmas for `dropWhile`, `stripChars` and `findallWords`. -/

/-- Membership survives `dropWhile` for an element the predicate rejects. -/
theorem mem_dropWhile_of_mem {p : Char → Bool} {l : List Char} {c : Char}
    (hc : c ∈ l) (hpc : p c = false) : c ∈ l.dropWhile p := by
  induction l with
  | nil => cases hc
  | cons a t ih =>
    rw [List.dropWhile_cons]
    by_cases ha : p a = true
    · rw [if_pos ha]
      rcases List.mem_cons.mp hc with h | h
      · subst h; rw [hpc] at ha; cases ha
      · exact ih h
    · rw [if_neg ha]
      exact hc

/-- A non-whitespace element of a list survives `stripChars`. -/
theorem mem_stripChars_of_mem {l : List Char} {c : Char}
    (hc : c ∈ l) (hpc : isPySpace c = false) : c ∈ stripChars l := by
  unfold stripChars
  rw [List.mem_reverse]
  apply mem_dropWhile_of_mem _ hpc
  rw [List.mem_reverse]
  exact mem_dropWhile_of_mem hc hpc

/-- Elements of `stripChars l` come from `l`. -/
theorem mem_of_mem_stripChars {l : List Char} {c : Char}
    (h : c ∈ stripChars l) : c ∈ l := by
  unfold stripChars at h
  rw [List.mem_reverse] at h
  have h2 := (List.dropWhile_sublist _).subset h
  rw [List.mem_reverse] at h2
  exact (List.dropWhile_sublist _).subset h2

/-- A list with a word character has at least one token. -/
theorem findallWords_ne_nil_of_mem_word {l : List Char} {c : Char}
    (hc : c ∈ l) (hw : isWordChar c = true) : findallWords l ≠ [] := by
  induction l with
  | nil => cases hc
  | cons a t ih =>
    by_cases ha : isWordChar a = true
    · rw [findallWords_cons_word a t ha]
      simp
    · rw [findallWords_cons_nonword a t (by simp [ha])]
      rcases List.mem_cons.mp hc with h | h
      · subst h; exact absurd hw ha
      · exact ih h

/-- A list of non-word characters has no token. -/
theorem findallWords_eq_nil_of_nonword {l : List Char}
    (h : ∀ c ∈ l, isWordChar c = false) : findallWords l = [] := by
  induction l with
  | nil => rfl
  | cons a t ih =>
    rw [findallWords_cons_nonword a t (by simp [h a (List.mem_cons_self a t)])]
    exact ih (fun c hc => h c (List.mem_cons_of_mem _ hc))

/-! Claim C1. -/

/-- C1: the claimed precedence (explicit constructor argument over environment
variable) fails for the temperature.  With the explicit argument `0.7` and
`LLM_TEMPERATURE=0.9` set, `__init__` resolves the temperature from the
environment string `"0.9"` — the explicit argument is passed to `os.getenv`
only as its default, so the environment wins.  The other three fields do
follow the claimed precedence at this input. -/
theorem c1_temperature_env_wins :
    (LLMClient.init none none none (7/10)
        (fun k => if k = cs "LLM_TEMPERATURE" then some (cs "0.9") else none)).temperature
        = TempValue.ofEnvString (cs "0.9") ∧
    (LLMClient.init none none none (7/10)
        (fun k => if k = cs "LLM_TEMPERATURE" then some (cs "0.9") else none)).temperature
        ≠ TempValue.ofNumber (7/10) ∧
    (LLMClient.init (some (cs "m")) (some (cs "k")) (some (cs "b")) (7/10)
        (fun _ => some (cs "e"))).model = cs "m" ∧
    (LLMClient.init (some (cs "m")) (some (cs "k")) (some (cs "b")) (7/10)
        (fun _ => some (cs "e"))).api_key = some (cs "k") ∧
    (LLMClient.init (some (cs "m")) (some (cs "k")) (some (cs "b")) (7/10)
        (fun _ => some (cs "e"))).api_base = some (cs "b") := by
  refine ⟨rfl, ?_, rfl, rfl, rfl⟩
  intro h
  exact TempValue.noConfusion h

/-! Claim C2. -/

/-- C2: when the client is configured and the provider call raises with
message `msg`, `generate_response` catches it and returns exactly
`"[LLM Error] Unable to fetch response: "` followed by the message; the
exception is never propagated (the result is always `some`). -/
theorem c2_provider_error_caught (c : LLMClient) (avail : Bool)
    (prompt msg : List Char) (h : isConfigured c avail = true) :
    generateResponse c avail (.failure msg) prompt
      = some (cs "[LLM Error] Unable to fetch response: " ++ msg) := by
  simp [generateResponse, h]

/-- Witness for C2 at a concrete configured client, prompt and message. -/
theorem c2_provider_error_caught_witness :
    isConfigured
        { model := cs "gpt-4o-mini", api_key := some (cs "key")
          api_base := none, temperature := TempValue.ofNumber (1/5) } true = true ∧
    generateResponse
        { model := cs "gpt-4o-mini", api_key := some (cs "key")
          api_base := none, temperature := TempValue.ofNumber (1/5) } true
        (.failure (cs "boom")) (cs "a prompt")
      = some (cs "[LLM Error] Unable to fetch response: " ++ cs "boom") := by
  constructor
  · decide
  · exact c2_provider_error_caught _ _ _ _ (by decide)

/-! Claim C7. -/

/-- C7: preprocessing yields a non-empty token list whenever the input
contains a word character, and an empty token list with empty normalized text
whenever it contains none (in particular for empty or all-punctuation
input). -/
theorem c7_token_emptiness (s : List Char) :
    ((∃ c ∈ s, isWordChar c = true) → (preprocess s).tokens ≠ []) ∧
    ((∀ c ∈ s, isWordChar c = false) →
      (preprocess s).tokens = [] ∧ (preprocess s).processed_text = []) := by
  constructor
  · rintro ⟨c, hc, hw⟩
    show findallWords ((stripChars s).map Char.toLower) ≠ []
    have h1 : c ∈ stripChars s := mem_stripChars_of_mem hc (not_pySpace_of_word c hw)
    have h2 : c.toLower ∈ (stripChars s).map Char.toLower := List.mem_map_of_mem _ h1
    exact findallWords_ne_nil_of_mem_word h2 (isWordChar_toLower c hw)
  · intro h
    have htok : findallWords ((stripChars s).map Char.toLower) = [] := by
      apply findallWords_eq_nil_of_nonword
      intro d hd
      rcases List.mem_map.mp hd with ⟨e, he, rfl⟩
      have hne := h e (mem_of_mem_stripChars he)
      rw [toLower_eq_self_of_nonword e (by simp [hne])]
      exact hne
    refine ⟨htok, ?_⟩
    show joinSep ' ' (findallWords ((stripChars s).map Char.toLower)) = []
    rw [htok]
    rfl

/-- Witness for C7 at the concrete input `"a!"`. -/
theorem c7_token_emptiness_witness :
    (∃ c ∈ cs "a!", isWordChar c = true) ∧ (preprocess (cs "a!")).tokens ≠ [] :=
  ⟨by decide, (c7_token_emptiness (cs "a!")).1 (by decide)⟩

/-! Claim C6: `findallWords` against the spec's split on non-word
boundaries. -/

/-- `splitNonWord` on a word head extends the first piece. -/
theorem splitNonWord_cons_word (c : Char) (rest : List Char)
    (h : isWordChar c = true) :
    splitNonWord (c :: rest) = consHead c (splitNonWord rest) := by
  cases rest <;> simp [splitNonWord, h]

/-- `splitNonWord` on a non-word head followed by a word character emits the
empty piece that ends the separator run. -/
theorem splitNonWord_nonword_word (c d : Char) (t : List Char)
    (hc : isWordChar c = false) (hd : isWordChar d = true) :
    splitNonWord (c :: d :: t) = [] :: splitNonWord (d :: t) := by
  simp [splitNonWord, hc, hd]

/-- `splitNonWord` merges consecutive non-word characters into one
separator. -/
theorem splitNonWord_nonword_nonword (c d : Char) (t : List Char)
    (hc : isWordChar c = false) (hd : isWordChar d = false) :
    splitNonWord (c :: d :: t) = splitNonWord (d :: t) := by
  simp [splitNonWord, hc, hd]

/-- `splitNonWord` always yields at least one piece. -/
theorem splitNonWord_ne_nil (l : List Char) : splitNonWord l ≠ [] := by
  induction l with
  | nil => simp [splitNonWord]
  | cons c rest ih =>
    by_cases hc : isWordChar c = true
    · rw [splitNonWord_cons_word c rest hc]
      cases splitNonWord rest with
      | nil => simp [consHead]
      | cons p ps => simp [consHead]
    · cases rest with
      | nil => simp [splitNonWord, hc]
      | cons d t =>
        by_cases hd : isWordChar d = true
        · rw [splitNonWord_nonword_word c d t (by simpa using hc) hd]
          simp
        · rw [splitNonWord_nonword_nonword c d t (by simpa using hc) (by simpa using hd)]
          exact ih

/-- A non-word head character leaves an empty first piece. -/
theorem splitNonWord_head_nonword (rest : List Char) :
    ∀ c : Char, isWordChar c = false →
      ∃ ps, splitNonWord (c :: rest) = [] :: ps := by
  induction rest with
  | nil =>
    intro c hc
    exact ⟨[[]], by simp [splitNonWord, hc]⟩
  | cons d t ih =>
    intro c hc
    by_cases hd : isWordChar d = true
    · exact ⟨splitNonWord (d :: t), splitNonWord_nonword_word c d t hc hd⟩
    · obtain ⟨ps, hps⟩ := ih d (by simpa using hd)
      exact ⟨ps, by
        rw [splitNonWord_nonword_nonword c d t hc (by simpa using hd)]
        exact hps⟩

/-- The tokens are exactly the non-empty pieces of the spec's split. -/
theorem findallWords_eq_filter_splitNonWord (l : List Char) :
    findallWords l = (splitNonWord l).filter (fun t => !t.isEmpty) := by
  induction l with
  | nil => rfl
  | cons c rest ih =>
    cases rest with
    | nil =>
      by_cases hc : isWordChar c = true
      · simp [findallWords, splitNonWord, consHead, hc, List.filter]
      · simp [findallWords, splitNonWord, hc, List.filter]
    | cons d t =>
      by_cases hc : isWordChar c = true
      · by_cases hd : isWordChar d = true
        · obtain ⟨q, qs, hq⟩ : ∃ q qs, splitNonWord (d :: t) = (d :: q) :: qs := by
            rw [splitNonWord_cons_word d t hd]
            cases hqs : splitNonWord t with
            | nil => exact absurd hqs (splitNonWord_ne_nil t)
            | cons q qs => exact ⟨q, qs, by simp [consHead]⟩
          have hsplit : splitNonWord (c :: d :: t) = (c :: d :: q) :: qs := by
            rw [splitNonWord_cons_word c (d :: t) hc, hq]
            simp [consHead]
          have hfind : findallWords (c :: d :: t) =
              consHead c (findallWords (d :: t)) := by
            simp [findallWords, hc, hd]
          rw [hfind, ih, hq, hsplit]
          simp [List.filter, consHead]
        · obtain ⟨ps, hps⟩ := splitNonWord_head_nonword t d (by simpa using hd)
          have hsplit : splitNonWord (c :: d :: t) = [c] :: ps := by
            rw [splitNonWord_cons_word c (d :: t) hc, hps]
            simp [consHead]
          have hfind : findallWords (c :: d :: t) = [c] :: findallWords (d :: t) := by
            simp [findallWords, hc, hd]
          rw [hfind, ih, hps, hsplit]
          simp [List.filter]
      · by_cases hd : isWordChar d = true
        · have hsplit : splitNonWord (c :: d :: t) = [] :: splitNonWord (d :: t) :=
            splitNonWord_nonword_word c d t (by simpa using hc) hd
          rw [findallWords_cons_nonword c (d :: t) (by simp [hc]), ih, hsplit]
          simp [List.filter]
        · have hsplit : splitNonWord (c :: d :: t) = splitNonWord (d :: t) :=
            splitNonWord_nonword_nonword c d t (by simpa using hc) (by simpa using hd)
          rw [findallWords_cons_nonword c (d :: t) (by simp [hc]), ih, hsplit]

/-- C6: every token is non-empty, the token list is a sublist of the lowered
text split on non-word boundaries, and the normalized text is the tokens
joined by single spaces. -/
theorem c6_token_invariants (s : List Char) :
    (∀ t ∈ (preprocess s).tokens, t ≠ []) ∧
    List.Sublist (preprocess s).tokens (splitNonWord (preprocess s).lowered) ∧
    (preprocess s).processed_text = joinSep ' ' (preprocess s).tokens := by
  have hf : (preprocess s).tokens =
      (splitNonWord ((stripChars s).map Char.toLower)).filter (fun t => !t.isEmpty) :=
    findallWords_eq_filter_splitNonWord _
  refine ⟨?_, ?_, rfl⟩
  · intro t ht
    rw [hf] at ht
    have h2 := (List.mem_filter.mp ht).2
    simpa using h2
  · rw [show (preprocess s).lowered = (stripChars s).map Char.toLower from rfl, hf]
    exact List.filter_sublist _

/-- Witness for C6: a concrete token obtained from the theorem is
non-empty. -/
theorem c6_token_invariants_witness :
    cs "hi" ∈ (preprocess (cs "Hi!")).tokens ∧ cs "hi" ≠ [] :=
  ⟨by decide, (c6_token_invariants (cs "Hi!")).1 (cs "hi") (by decide)⟩

/-! Claim C4: idempotence of preprocessing. -/

/-- Tokens are never empty. -/
theorem findallWords_mem_ne_nil {l t : List Char} (ht : t ∈ findallWords l) :
    t ≠ [] := by
  rw [findallWords_eq_filter_splitNonWord] at ht
  have h2 := (List.mem_filter.mp ht).2
  simpa using h2

/-- Every character of a token is a word character. -/
theorem findallWords_all_word {l : List Char} :
    ∀ t ∈ findallWords l, ∀ c ∈ t, isWordChar c = true := by
  induction l with
  | nil => intro t ht; cases ht
  | cons a rest ih =>
    cases rest with
    | nil =>
      intro t ht c hc
      by_cases ha : isWordChar a = true
      · simp only [findallWords, ha, if_true, List.mem_singleton] at ht
        subst ht
        rcases List.mem_singleton.mp hc with rfl
        exact ha
      · simp only [findallWords, ha, if_false] at ht
        cases ht
    | cons d tl =>
      intro t ht c hc
      by_cases ha : isWordChar a = true
      · by_cases hd : isWordChar d = true
        · rw [show findallWords (a :: d :: tl) = consHead a (findallWords (d :: tl))
            by simp [findallWords, ha, hd]] at ht
          cases hX : findallWords (d :: tl) with
          | nil =>
            rw [hX] at ht
            rcases List.mem_singleton.mp ht with rfl
            rcases List.mem_singleton.mp hc with rfl
            exact ha
          | cons p ps =>
            rw [hX] at ht
            rcases List.mem_cons.mp ht with rfl | hmem
            · rcases List.mem_cons.mp hc with rfl | hcp
              · exact ha
              · exact ih p (hX ▸ List.mem_cons_self p ps) c hcp
            · exact ih t (hX ▸ List.mem_cons_of_mem p hmem) c hc
        · rw [show findallWords (a :: d :: tl) = [a] :: findallWords (d :: tl)
            by simp [findallWords, ha, hd]] at ht
          rcases List.mem_cons.mp ht with rfl | hmem
          · rcases List.mem_singleton.mp hc with rfl
            exact ha
          · exact ih t hmem c hc
      · rw [findallWords_cons_nonword a (d :: tl) (by simp [ha])] at ht
        exact ih t ht c hc

/-- Token characters come from the scanned list. -/
theorem findallWords_subset {l : List Char} :
    ∀ t ∈ findallWords l, ∀ c ∈ t, c ∈ l := by
  induction l with
  | nil => intro t ht; cases ht
  | cons a rest ih =>
    cases rest with
    | nil =>
      intro t ht c hc
      by_cases ha : isWordChar a = true
      · simp only [findallWords, ha, if_true, List.mem_singleton] at ht
        subst ht
        exact hc
      · simp only [findallWords, ha, if_false] at ht
        cases ht
    | cons d tl =>
      intro t ht c hc
      by_cases ha : isWordChar a = true
      · by_cases hd : isWordChar d = true
        · rw [show findallWords (a :: d :: tl) = consHead a (findallWords (d :: tl))
            by simp [findallWords, ha, hd]] at ht
          cases hX : findallWords (d :: tl) with
          | nil =>
            rw [hX] at ht
            rcases List.mem_singleton.mp ht with rfl
            exact List.mem_cons.mpr (Or.inl (List.mem_singleton.mp hc))
          | cons p ps =>
            rw [hX] at ht
            rcases List.mem_cons.mp ht with rfl | hmem
            · rcases List.mem_cons.mp hc with rfl | hcp
              · exact List.mem_cons_self _ _
              · exact List.mem_cons_of_mem _
                  (ih p (hX ▸ List.mem_cons_self p ps) c hcp)
            · exact List.mem_cons_of_mem _
                (ih t (hX ▸ List.mem_cons_of_mem p hmem) c hc)
        · rw [show findallWords (a :: d :: tl) = [a] :: findallWords (d :: tl)
            by simp [findallWords, ha, hd]] at ht
          rcases List.mem_cons.mp ht with rfl | hmem
          · rcases List.mem_singleton.mp hc with rfl
            exact List.mem_cons_self _ _
          · exact List.mem_cons_of_mem _ (ih t hmem c hc)
      · rw [findallWords_cons_nonword a (d :: tl) (by simp [ha])] at ht
        exact List.mem_cons_of_mem _ (ih t ht c hc)

/-- `takeWhile` and `dropWhile` across an all-satisfying block followed by a
rejected element. -/
theorem takeWhile_dropWhile_append {p : Char → Bool} (a : List Char) (x : Char)
    (r : List Char) (ha : ∀ c ∈ a, p c = true) (hx : p x = false) :
    (a ++ x :: r).takeWhile p = a ∧ (a ++ x :: r).dropWhile p = x :: r := by
  induction a with
  | nil => simp [List.takeWhile_cons, List.dropWhile_cons, hx]
  | cons c t ih =>
    have hc := ha c (List.mem_cons_self c t)
    have ih2 := ih (fun d hd => ha d (List.mem_cons_of_mem c hd))
    simp only [List.cons_append, List.takeWhile_cons, List.dropWhile_cons, hc,
      if_true]
    exact ⟨by rw [ih2.1], by rw [ih2.2]⟩

/-- `joinSep` on two or more pieces. -/
theorem joinSep_cons_cons (sep : Char) (t t2 : List Char) (ts : List (List Char)) :
    joinSep sep (t :: t2 :: ts) = t ++ sep :: joinSep sep (t2 :: ts) := rfl

/-- A member of a joined list is the separator or comes from a piece. -/
theorem mem_joinSep {sep : Char} {ts : List (List Char)} {c : Char}
    (hc : c ∈ joinSep sep ts) : c = sep ∨ ∃ t ∈ ts, c ∈ t := by
  induction ts with
  | nil => cases hc
  | cons t ts ih =>
    cases ts with
    | nil =>
      exact Or.inr ⟨t, List.mem_singleton_self t, hc⟩
    | cons t2 ts2 =>
      rw [joinSep_cons_cons] at hc
      rcases List.mem_append.mp hc with h | h
      · exact Or.inr ⟨t, List.mem_cons_self _ _, h⟩
      · rcases List.mem_cons.mp h with rfl | h2
        · exact Or.inl rfl
        · rcases ih h2 with h3 | ⟨u, hu, hcu⟩
          · exact Or.inl h3
          · exact Or.inr ⟨u, List.mem_cons_of_mem _ hu, hcu⟩

/-- The head of a join whose first piece is non-empty. -/
theorem joinSep_head? (sep c : Char) (t1 : List Char) (ts : List (List Char)) :
    (joinSep sep ((c :: t1) :: ts)).head? = some c := by
  cases ts with
  | nil => rfl
  | cons t2 ts2 => rw [joinSep_cons_cons]; rfl

/-- The last character of a join of non-empty all-word pieces is a word
character. -/
theorem getLast?_joinSep_word (ts : List (List Char))
    (h : ∀ t ∈ ts, t ≠ [] ∧ ∀ c ∈ t, isWordChar c = true) :
    ∀ c, (joinSep ' ' ts).getLast? = some c → isWordChar c = true := by
  induction ts with
  | nil => intro c hc; cases hc
  | cons t ts ih =>
    intro c hc
    cases ts with
    | nil =>
      exact (h t (List.mem_singleton_self t)).2 c (List.mem_of_mem_getLast? hc)
    | cons t2 ts2 =>
      rw [joinSep_cons_cons] at hc
      have hJ : joinSep ' ' (t2 :: ts2) ≠ [] := by
        obtain ⟨d, t2', ht2⟩ : ∃ d t2', t2 = d :: t2' := by
          cases ht2 : t2 with
          | nil => exact absurd ht2 (h t2 (List.mem_cons_of_mem _ (List.mem_cons_self _ _))).1
          | cons d t2' => exact ⟨d, t2', rfl⟩
        rw [ht2]
        intro hnil
        have hhd := joinSep_head? ' ' d t2' ts2
        rw [hnil] at hhd
        cases hhd
      rw [List.getLast?_append_of_ne_nil _ (by simp)] at hc
      have hc2 : (joinSep ' ' (t2 :: ts2)).getLast? = some c := by
        cases hJ2 : joinSep ' ' (t2 :: ts2) with
        | nil => exact absurd hJ2 hJ
        | cons b bs =>
          rw [hJ2, List.getLast?_cons_cons] at hc
          exact hc
      exact ih (fun u hu => h u (List.mem_cons_of_mem _ hu)) c hc2

/-- `stripChars` fixes a list whose two ends are not whitespace. -/
theorem stripChars_eq_self (l : List Char)
    (h1 : ∀ c, l.head? = some c → isPySpace c = false)
    (h2 : ∀ c, l.getLast? = some c → isPySpace c = false) :
    stripChars l = l := by
  have hd : l.dropWhile isPySpace = l := by
    cases l with
    | nil => rfl
    | cons a t =>
      rw [List.dropWhile_cons]
      simp [h1 a rfl]
  unfold stripChars
  rw [hd]
  have hrev : l.reverse.dropWhile isPySpace = l.reverse := by
    cases hr : l.reverse with
    | nil => rfl
    | cons a t =>
      have ha : l.getLast? = some a := by
        rw [← List.head?_reverse, hr]
        rfl
      rw [List.dropWhile_cons]
      simp [h2 a ha]
  rw [hrev, List.reverse_reverse]

/-- Scanning a join of non-empty all-word pieces recovers the pieces. -/
theorem findallWords_joinSep (ts : List (List Char))
    (h : ∀ t ∈ ts, t ≠ [] ∧ ∀ c ∈ t, isWordChar c = true) :
    findallWords (joinSep ' ' ts) = ts := by
  induction ts with
  | nil => rfl
  | cons t ts ih =>
    obtain ⟨c, t', rfl⟩ : ∃ c t', t = c :: t' := by
      cases htv : t with
      | nil => exact absurd htv (h t (List.mem_cons_self _ _)).1
      | cons c t' => exact ⟨c, t', rfl⟩
    have hword := (h _ (List.mem_cons_self _ _)).2
    have hc : isWordChar c = true := hword c (List.mem_cons_self c t')
    have ht' : ∀ d ∈ t', isWordChar d = true :=
      fun d hd => hword d (List.mem_cons_of_mem c hd)
    cases ts with
    | nil =>
      show findallWords (c :: t') = [c :: t']
      rw [findallWords_cons_word c t' hc]
      rw [List.takeWhile_eq_self_iff.mpr ht']
      rw [List.dropWhile_eq_nil_iff.mpr ht']
      rfl
    | cons t2 ts2 =>
      rw [joinSep_cons_cons]
      rw [show (c :: t') ++ ' ' :: joinSep ' ' (t2 :: ts2)
          = c :: (t' ++ ' ' :: joinSep ' ' (t2 :: ts2)) from rfl]
      rw [findallWords_cons_word c _ hc]
      have hsp : isWordChar ' ' = false := by decide
      obtain ⟨htake, hdrop⟩ :=
        takeWhile_dropWhile_append t' ' ' (joinSep ' ' (t2 :: ts2)) ht' hsp
      rw [htake, hdrop]
      rw [findallWords_cons_nonword ' ' _ (by simp [hsp])]
      rw [ih (fun u hu => h u (List.mem_cons_of_mem _ hu))]

/-- Mapping `toLower` over a list of `toLower`-fixed characters changes
nothing. -/
theorem map_toLower_id_of (l : List Char) (h : ∀ c ∈ l, Char.toLower c = c) :
    l.map Char.toLower = l := by
  rw [List.map_congr_left h]
  exact List.map_id l

/-- The non-emptiness and all-word property of the tokens of any input. -/
theorem tokens_spec (s : List Char) :
    ∀ t ∈ (preprocess s).tokens, t ≠ [] ∧ ∀ c ∈ t, isWordChar c = true :=
  fun t ht => ⟨findallWords_mem_ne_nil ht, findallWords_all_word t ht⟩

/-- C4: preprocessing the normalized text of a preprocessed input yields the
same tokens and the same normalized text. -/
theorem c4_preprocess_idempotent (s : List Char) :
    (preprocess (preprocess s).processed_text).tokens = (preprocess s).tokens ∧
    (preprocess (preprocess s).processed_text).processed_text
      = (preprocess s).processed_text := by
  have htok := tokens_spec s
  have hchar : ∀ c ∈ joinSep ' ' (preprocess s).tokens, Char.toLower c = c := by
    intro c hc
    rcases mem_joinSep hc with rfl | ⟨t, ht, hct⟩
    · decide
    · have hcl : c ∈ (stripChars s).map Char.toLower :=
        findallWords_subset t ht c hct
      rcases List.mem_map.mp hcl with ⟨y, _, rfl⟩
      exact toLower_toLower y
  have hstrip : stripChars (joinSep ' ' (preprocess s).tokens)
      = joinSep ' ' (preprocess s).tokens := by
    apply stripChars_eq_self
    · intro c hc
      cases hts : (preprocess s).tokens with
      | nil => rw [hts] at hc; cases hc
      | cons t ts =>
        obtain ⟨d, t', rfl⟩ : ∃ d t', t = d :: t' := by
          cases htv : t with
          | nil => exact absurd htv (htok t (hts ▸ List.mem_cons_self _ _)).1
          | cons d t' => exact ⟨d, t', rfl⟩
        rw [hts, joinSep_head?] at hc
        obtain rfl := Option.some.inj hc
        exact not_pySpace_of_word _
          ((htok _ (hts ▸ List.mem_cons_self _ _)).2 _ (List.mem_cons_self _ _))
    · intro c hc
      exact not_pySpace_of_word c (getLast?_joinSep_word _ htok c hc)
  have hlower := map_toLower_id_of (joinSep ' ' (preprocess s).tokens) hchar
  have hfind := findallWords_joinSep (preprocess s).tokens htok
  constructor
  · show findallWords ((stripChars (joinSep ' ' (preprocess s).tokens)).map Char.toLower)
        = (preprocess s).tokens
    rw [hstrip, hlower]
    exact hfind
  · show joinSep ' '
        (findallWords ((stripChars (joinSep ' ' (preprocess s).tokens)).map Char.toLower))
        = joinSep ' ' (preprocess s).tokens
    rw [hstrip, hlower, hfind]

/-! Lemmas about `splitOnNl`, `dedent` and `stripChars` on template-shaped
texts. -/

/-- Splitting a newline-free text yields one line. -/
theorem splitOnNl_no_nl {l : List Char} (h : '\n' ∉ l) : splitOnNl l = [l] := by
  induction l with
  | nil => rfl
  | cons c rest ih =>
    have hc : ¬ c = '\n' := fun hcc => h (hcc ▸ List.mem_cons_self c rest)
    rw [show splitOnNl (c :: rest) = consHead c (splitOnNl rest) by
      simp [splitOnNl, hc]]
    rw [ih (fun hm => h (List.mem_cons_of_mem c hm))]
    rfl

/-- Splitting past a newline-free block followed by a newline. -/
theorem splitOnNl_append_nl {a : List Char} (r : List Char) (h : '\n' ∉ a) :
    splitOnNl (a ++ '\n' :: r) = a :: splitOnNl r := by
  induction a with
  | nil => simp [splitOnNl]
  | cons c t ih =>
    have hc : ¬ c = '\n' := fun hcc => h (hcc ▸ List.mem_cons_self c t)
    rw [List.cons_append]
    rw [show splitOnNl (c :: (t ++ '\n' :: r)) = consHead c (splitOnNl (t ++ '\n' :: r)) by
      simp [splitOnNl, hc]]
    rw [ih (fun hm => h (List.mem_cons_of_mem c hm))]
    rfl

/-- `splitOnNl` inverts `joinSep '\n'` on newline-free lines. -/
theorem splitOnNl_joinSep (lines : List (List Char))
    (h : ∀ l ∈ lines, '\n' ∉ l) (hne : lines ≠ []) :
    splitOnNl (joinSep '\n' lines) = lines := by
  induction lines with
  | nil => exact absurd rfl hne
  | cons l ls ih =>
    cases ls with
    | nil => exact splitOnNl_no_nl (h l (List.mem_singleton_self l))
    | cons l2 ls2 =>
      rw [joinSep_cons_cons]
      rw [splitOnNl_append_nl _ (h l (List.mem_cons_self _ _))]
      rw [ih (fun u hu => h u (List.mem_cons_of_mem _ hu)) (by simp)]

/-- `takeWhile` and `dropWhile` over an append whose left part already stops
the scan. -/
theorem takeWhile_dropWhile_append_left {p : Char → Bool} (a b : List Char)
    (h : a.dropWhile p ≠ []) :
    (a ++ b).takeWhile p = a.takeWhile p ∧
    (a ++ b).dropWhile p = a.dropWhile p ++ b := by
  induction a with
  | nil => exact absurd rfl h
  | cons c t ih =>
    by_cases hc : p c = true
    · have ht : t.dropWhile p ≠ [] := by
        rw [List.dropWhile_cons, if_pos hc] at h
        exact h
      have ih2 := ih ht
      constructor
      · rw [List.cons_append, List.takeWhile_cons, if_pos hc, ih2.1,
          List.takeWhile_cons, if_pos hc]
      · rw [List.cons_append, List.dropWhile_cons, if_pos hc, ih2.2,
          List.dropWhile_cons, if_pos hc]
    · constructor
      · rw [List.cons_append, List.takeWhile_cons, if_neg hc,
          List.takeWhile_cons, if_neg hc]
      · rw [List.cons_append, List.dropWhile_cons, if_neg hc,
          List.dropWhile_cons, if_neg hc, List.cons_append]

/-- A line containing a non-indent character is not whitespace-only. -/
theorem normWsLine_of_mem {l : List Char} {c : Char} (hc : c ∈ l)
    (hn : isIndentChar c = false) : normWsLine l = l := by
  unfold normWsLine
  rw [if_neg]
  intro hcontra
  have hall := (Bool.and_eq_true _ _).mp hcontra |>.2
  have := List.all_eq_true.mp hall c hc
  rw [hn] at this
  cases this

/-- `lineIndent` over an append whose left part contains the first non-indent
character. -/
theorem lineIndent_append (a b : List Char) (h : a.dropWhile isIndentChar ≠ []) :
    lineIndent (a ++ b) = some (a.takeWhile isIndentChar) := by
  obtain ⟨htake, hdrop⟩ := takeWhile_dropWhile_append_left a b h
  unfold lineIndent
  rw [htake, hdrop]
  rw [if_neg]
  simp only [List.isEmpty_eq_true, List.append_eq_nil]
  intro hcontra
  exact h hcontra.1

/-- Removing a margin from a line that starts with it. -/
theorem removeMargin_append (m r : List Char) : removeMargin m (m ++ r) = r := by
  unfold removeMargin
  rw [if_pos (List.isPrefixOf_iff_prefix.mpr (List.prefix_append m r))]
  exact List.drop_left m r

/-- The striped text of a text `'\n' :: M ++ ['\n']` whose payload `M` starts
and ends with a non-whitespace character is `M` itself. -/
theorem stripChars_wrapped (a b : List Char) (o : List Char)
    (ha : a.dropWhile isPySpace = a) (hane : a ≠ [])
    (hb : b.reverse.dropWhile isPySpace = b.reverse) (hbne : b ≠ []) :
    stripChars ('\n' :: (a ++ o ++ b ++ ['\n'])) = a ++ o ++ b := by
  unfold stripChars
  have h10 : isPySpace '\n' = true := by decide
  rw [List.dropWhile_cons, if_pos h10]
  have hadrop : (a ++ (o ++ b ++ ['\n'])).dropWhile isPySpace
      = a ++ (o ++ b ++ ['\n']) := by
    have := (takeWhile_dropWhile_append_left a (o ++ b ++ ['\n'])
      (by rw [ha]; exact hane)).2
    rw [ha] at this
    exact this
  rw [show a ++ o ++ b ++ ['\n'] = a ++ (o ++ b ++ ['\n']) by
      simp [List.append_assoc]]
  rw [hadrop]
  have hrev : (a ++ (o ++ b ++ ['\n'])).reverse
      = '\n' :: (b.reverse ++ (o.reverse ++ a.reverse)) := by
    simp [List.reverse_append]
  rw [hrev]
  rw [List.dropWhile_cons, if_pos h10]
  have hbdrop : (b.reverse ++ (o.reverse ++ a.reverse)).dropWhile isPySpace
      = b.reverse ++ (o.reverse ++ a.reverse) := by
    have := (takeWhile_dropWhile_append_left b.reverse (o.reverse ++ a.reverse)
      (by rw [hb]; simpa using hbne)).2
    rw [hb] at this
    exact this
  rw [hbdrop]
  simp [List.reverse_append, List.append_assoc]


/-- `dedent` when the margin computation yields a non-empty margin `m`. -/
theorem dedent_eq_of (text : List Char) (lines : List (List Char)) (m : List Char)
    (h1 : (splitOnNl text).map normWsLine = lines)
    (h2 : computeMargin (lines.filterMap lineIndent) = some m)
    (h3 : m.isEmpty = false) :
    dedent text = joinSep '\n' (lines.map (removeMargin m)) := by
  unfold dedent
  simp only [h1]
  rw [h2]
  simp [h3]

/-- The prompt text for newline-free interpolations: preamble, original,
normalized, and the `Answer:` coda. -/
theorem promptText_eq (o p : List Char) (ho : '\n' ∉ o) (hp : '\n' ∉ p) :
    stripChars (dedent (promptRawText o p)) =
      cs "You are a helpful university-level teaching assistant. Answer the user's\nquestion clearly and concisely. Cite key facts when appropriate and\nmention assumptions if the question lacks detail.\n\nOriginal question: " ++ o ++ cs "\nNormalized question: " ++ p ++ cs "\n\nAnswer:" := by
  have hnl6 : '\n' ∉ cs "            Original question: " ++ o := by
    intro hm
    rcases List.mem_append.mp hm with h | h
    · exact absurd h (by decide)
    · exact ho h
  have hnl7 : '\n' ∉ cs "            Normalized question: " ++ p := by
    intro hm
    rcases List.mem_append.mp hm with h | h
    · exact absurd h (by decide)
    · exact hp h
  have hsplit : splitOnNl (promptRawText o p) =
      [ [], cs "            You are a helpful university-level teaching assistant. Answer the user's", cs "            question clearly and concisely. Cite key facts when appropriate and", cs "            mention assumptions if the question lacks detail.", [],
        cs "            Original question: " ++ o, cs "            Normalized question: " ++ p, [], cs "            Answer:", cs "            " ] := by
    refine splitOnNl_joinSep _ ?_ (by simp)
    intro l hl
    simp only [List.mem_cons, List.not_mem_nil, or_false] at hl
    rcases hl with rfl|rfl|rfl|rfl|rfl|rfl|rfl|rfl|rfl|rfl
    · simp
    · decide
    · decide
    · decide
    · simp
    · exact hnl6
    · exact hnl7
    · simp
    · decide
    · decide
  have hn6 : normWsLine (cs "            Original question: " ++ o) = cs "            Original question: " ++ o :=
    normWsLine_of_mem (List.mem_append_left o (by decide : 'O' ∈ cs "            Original question: ")) (by decide)
  have hn7 : normWsLine (cs "            Normalized question: " ++ p) = cs "            Normalized question: " ++ p :=
    normWsLine_of_mem (List.mem_append_left p (by decide : 'N' ∈ cs "            Normalized question: ")) (by decide)
  have hmap : (splitOnNl (promptRawText o p)).map normWsLine =
      [ [], cs "            You are a helpful university-level teaching assistant. Answer the user's", cs "            question clearly and concisely. Cite key facts when appropriate and", cs "            mention assumptions if the question lacks detail.", [],
        cs "            Original question: " ++ o, cs "            Normalized question: " ++ p, [], cs "            Answer:", [] ] := by
    rw [hsplit]
    simp only [List.map_cons, List.map_nil]
    rw [hn6, hn7]
    rw [show normWsLine [] = [] from by decide]
    rw [show normWsLine (cs "            You are a helpful university-level teaching assistant. Answer the user's") = cs "            You are a helpful university-level teaching assistant. Answer the user's" from by decide]
    rw [show normWsLine (cs "            question clearly and concisely. Cite key facts when appropriate and") = cs "            question clearly and concisely. Cite key facts when appropriate and" from by decide]
    rw [show normWsLine (cs "            mention assumptions if the question lacks detail.") = cs "            mention assumptions if the question lacks detail." from by decide]
    rw [show normWsLine (cs "            Answer:") = cs "            Answer:" from by decide]
    rw [show normWsLine (cs "            ") = [] from by decide]
  have hi6 : lineIndent (cs "            Original question: " ++ o) = some (cs "            ") := by
    rw [lineIndent_append _ _ (by decide)]
    decide
  have hi7 : lineIndent (cs "            Normalized question: " ++ p) = some (cs "            ") := by
    rw [lineIndent_append _ _ (by decide)]
    decide
  have hindents :
      ([ [], cs "            You are a helpful university-level teaching assistant. Answer the user's", cs "            question clearly and concisely. Cite key facts when appropriate and", cs "            mention assumptions if the question lacks detail.", [],
        cs "            Original question: " ++ o, cs "            Normalized question: " ++ p, [], cs "            Answer:", [] ]).filterMap lineIndent =
      [ cs "            ", cs "            ", cs "            ", cs "            ", cs "            ", cs "            " ] := by
    simp only [List.filterMap_cons, List.filterMap_nil]
    rw [hi6, hi7]
    rw [show lineIndent ([] : List Char) = none from by decide]
    rw [show lineIndent (cs "            You are a helpful university-level teaching assistant. Answer the user's") = some (cs "            ") from by decide]
    rw [show lineIndent (cs "            question clearly and concisely. Cite key facts when appropriate and") = some (cs "            ") from by decide]
    rw [show lineIndent (cs "            mention assumptions if the question lacks detail.") = some (cs "            ") from by decide]
    rw [show lineIndent (cs "            Answer:") = some (cs "            ") from by decide]
  have hr6 : removeMargin (cs "            ") (cs "            Original question: " ++ o) = cs "Original question: " ++ o := by
    rw [show cs "            Original question: " = cs "            " ++ cs "Original question: " from by decide]
    rw [List.append_assoc]
    exact removeMargin_append _ _
  have hr7 : removeMargin (cs "            ") (cs "            Normalized question: " ++ p) = cs "Normalized question: " ++ p := by
    rw [show cs "            Normalized question: " = cs "            " ++ cs "Normalized question: " from by decide]
    rw [List.append_assoc]
    exact removeMargin_append _ _
  have hdedent : dedent (promptRawText o p) =
      joinSep '\n'
        [ [], cs "You are a helpful university-level teaching assistant. Answer the user's", cs "question clearly and concisely. Cite key facts when appropriate and", cs "mention assumptions if the question lacks detail.", [],
          cs "Original question: " ++ o, cs "Normalized question: " ++ p, [], cs "Answer:", [] ] := by
    rw [dedent_eq_of (promptRawText o p) _ (cs "            ") hmap
      (by rw [hindents]; decide) (by decide)]
    simp only [List.map_cons, List.map_nil]
    rw [hr6, hr7]
    rw [show removeMargin (cs "            ") [] = [] from by decide]
    rw [show removeMargin (cs "            ") (cs "            You are a helpful university-level teaching assistant. Answer the user's") = cs "You are a helpful university-level teaching assistant. Answer the user's" from by decide]
    rw [show removeMargin (cs "            ") (cs "            question clearly and concisely. Cite key facts when appropriate and") = cs "question clearly and concisely. Cite key facts when appropriate and" from by decide]
    rw [show removeMargin (cs "            ") (cs "            mention assumptions if the question lacks detail.") = cs "mention assumptions if the question lacks detail." from by decide]
    rw [show removeMargin (cs "            ") (cs "            Answer:") = cs "Answer:" from by decide]
  have hjoin : dedent (promptRawText o p) =
      '\n' :: (cs "You are a helpful university-level teaching assistant. Answer the user's\nquestion clearly and concisely. Cite key facts when appropriate and\nmention assumptions if the question lacks detail.\n\nOriginal question: " ++ (o ++ cs "\nNormalized question: " ++ p) ++ cs "\n\nAnswer:" ++ ['\n']) := by
    rw [hdedent]
    rw [show cs "You are a helpful university-level teaching assistant. Answer the user's\nquestion clearly and concisely. Cite key facts when appropriate and\nmention assumptions if the question lacks detail.\n\nOriginal question: " = cs "You are a helpful university-level teaching assistant. Answer the user's" ++ '\n' :: (cs "question clearly and concisely. Cite key facts when appropriate and" ++ '\n' :: (cs "mention assumptions if the question lacks detail." ++ '\n' :: '\n' :: cs "Original question: ")) from by decide]
    rw [show cs "\nNormalized question: " = '\n' :: cs "Normalized question: " from by decide]
    rw [show cs "\n\nAnswer:" = '\n' :: '\n' :: cs "Answer:" from by decide]
    simp only [joinSep, List.nil_append, List.cons_append, List.append_assoc,
      List.append_nil, List.singleton_append]
  show stripChars (dedent (promptRawText o p)) = _
  rw [hjoin]
  rw [stripChars_wrapped (cs "You are a helpful university-level teaching assistant. Answer the user's\nquestion clearly and concisely. Cite key facts when appropriate and\nmention assumptions if the question lacks detail.\n\nOriginal question: ") (cs "\n\nAnswer:") (o ++ cs "\nNormalized question: " ++ p)
    (by decide) (by decide) (by decide) (by decide)]
  simp [List.append_assoc]

/-! Claim C5: the prompt contains the original and normalized text. -/

/-- The normalized text never contains a newline. -/
theorem nl_not_mem_processed (s : List Char) :
    '\n' ∉ (preprocess s).processed_text := by
  intro hm
  rcases mem_joinSep hm with h | ⟨t, ht, hct⟩
  · exact absurd h (by decide)
  · exact (word_ne_nl '\n' (findallWords_all_word t ht '\n' hct)) rfl

/-- C5 (amended): when the captured original question contains no newline, the
built prompt contains the fixed instructional preamble, the verbatim original
question and the verbatim normalized text as substrings. -/
theorem c5_prompt_contains (s : List Char)
    (ho : '\n' ∉ (preprocess s).original) :
    cs "You are a helpful university-level teaching assistant. Answer the user's\nquestion clearly and concisely. Cite key facts when appropriate and\nmention assumptions if the question lacks detail." <:+: buildPrompt (preprocess s) ∧
    (preprocess s).original <:+: buildPrompt (preprocess s) ∧
    (preprocess s).processed_text <:+: buildPrompt (preprocess s) := by
  have hp := nl_not_mem_processed s
  have hchar : buildPrompt (preprocess s) =
      cs "You are a helpful university-level teaching assistant. Answer the user's\nquestion clearly and concisely. Cite key facts when appropriate and\nmention assumptions if the question lacks detail.\n\nOriginal question: " ++ (preprocess s).original ++ cs "\nNormalized question: "
        ++ (preprocess s).processed_text ++ cs "\n\nAnswer:" :=
    promptText_eq (preprocess s).original (preprocess s).processed_text ho hp
  rw [hchar]
  refine ⟨?_, ?_, ?_⟩
  · refine ⟨[], cs "\n\nOriginal question: " ++ (preprocess s).original ++ cs "\nNormalized question: "
      ++ (preprocess s).processed_text ++ cs "\n\nAnswer:", ?_⟩
    rw [show cs "You are a helpful university-level teaching assistant. Answer the user's\nquestion clearly and concisely. Cite key facts when appropriate and\nmention assumptions if the question lacks detail.\n\nOriginal question: " = cs "You are a helpful university-level teaching assistant. Answer the user's\nquestion clearly and concisely. Cite key facts when appropriate and\nmention assumptions if the question lacks detail." ++ cs "\n\nOriginal question: " from by decide]
    simp [List.append_assoc]
  · exact ⟨cs "You are a helpful university-level teaching assistant. Answer the user's\nquestion clearly and concisely. Cite key facts when appropriate and\nmention assumptions if the question lacks detail.\n\nOriginal question: ", cs "\nNormalized question: " ++ (preprocess s).processed_text ++ cs "\n\nAnswer:",
      by simp [List.append_assoc]⟩
  · exact ⟨cs "You are a helpful university-level teaching assistant. Answer the user's\nquestion clearly and concisely. Cite key facts when appropriate and\nmention assumptions if the question lacks detail.\n\nOriginal question: " ++ (preprocess s).original ++ cs "\nNormalized question: ", cs "\n\nAnswer:",
      by simp [List.append_assoc]⟩

/-- C5 as stated is false: for the question `"a\n  b"` the captured original
contains a newline, `textwrap.dedent` treats the original's second line as
template margin, and the built prompt does not contain the original
verbatim. -/
theorem c5_counterexample :
    ¬ (preprocess (cs "a\n  b")).original
        <:+: buildPrompt (preprocess (cs "a\n  b")) := by
  rw [show (preprocess (cs "a\n  b")).original = cs "a\n  b" from by decide]
  rw [show buildPrompt (preprocess (cs "a\n  b")) =
    cs "You are a helpful university-level teaching assistant. Answer the user's\n          question clearly and concisely. Cite key facts when appropriate and\n          mention assumptions if the question lacks detail.\n\n          Original question: a\nb\n          Normalized question: a b\n\n          Answer:" from by decide]
  decide

/-- Witness for C5 at the concrete single-line question `"What is NLP?"`. -/
theorem c5_prompt_contains_witness :
    ('\n' ∉ (preprocess (cs "What is NLP?")).original) ∧
    (preprocess (cs "What is NLP?")).original
      <:+: buildPrompt (preprocess (cs "What is NLP?")) :=
  ⟨by decide, (c5_prompt_contains (cs "What is NLP?") (by decide)).2.1⟩


/-! `pySplitlines` facts and the offline-response characterization
(claims C3 and C10). -/

/-- The catch-all equation of `pySplitlines` (a head that is not the start of
a `\r\n` pair). -/
theorem pySplitlines_cons_eq (c : Char) (rest : List Char)
    (h2 : ∀ rest2, c = '\r' → rest = '\n' :: rest2 → False) :
    pySplitlines (c :: rest) =
      if isLineBoundary c then [] :: pySplitlines rest
      else consHead c (pySplitlines rest) := by
  rw [pySplitlines]
  exact h2

/-- A non-empty text has at least one line. -/
theorem pySplitlines_ne_nil {l : List Char} (h : l ≠ []) :
    pySplitlines l ≠ [] := by
  induction l using pySplitlines.induct with
  | case1 => exact absurd rfl h
  | case2 rest ih => simp [pySplitlines]
  | case3 c rest h2 hb ih =>
    rw [pySplitlines_cons_eq c rest h2, if_pos hb]
    simp
  | case4 c rest h2 hb ih =>
    rw [pySplitlines_cons_eq c rest h2, if_neg hb]
    cases pySplitlines rest with
    | nil => simp [consHead]
    | cons t ts => simp [consHead]

/-- No character of any line is a line boundary. -/
theorem pySplitlines_no_boundary (l : List Char) :
    ∀ t ∈ pySplitlines l, ∀ c ∈ t, isLineBoundary c = false := by
  induction l using pySplitlines.induct with
  | case1 => intro t ht; cases ht
  | case2 rest ih =>
    intro t ht c hc
    rcases List.mem_cons.mp ht with rfl | h
    · cases hc
    · exact ih t h c hc
  | case3 c0 rest h2 hb ih =>
    intro t ht c hc
    rw [pySplitlines_cons_eq c0 rest h2, if_pos hb] at ht
    rcases List.mem_cons.mp ht with rfl | h
    · cases hc
    · exact ih t h c hc
  | case4 c0 rest h2 hb ih =>
    intro t ht c hc
    rw [pySplitlines_cons_eq c0 rest h2, if_neg hb] at ht
    cases hX : pySplitlines rest with
    | nil =>
      rw [hX] at ht
      rcases List.mem_singleton.mp ht with rfl
      rcases List.mem_singleton.mp hc with rfl
      simpa using hb
    | cons p ps =>
      rw [hX] at ht
      rcases List.mem_cons.mp ht with rfl | h
      · rcases List.mem_cons.mp hc with rfl | hcp
        · simpa using hb
        · exact ih p (hX ▸ List.mem_cons_self p ps) c hcp
      · exact ih t (hX ▸ List.mem_cons_of_mem p h) c hc

/-- The offline message for a newline-free interpolated preview. -/
theorem offlineText_eq (preview : List Char) (hnp : '\n' ∉ preview) :
    stripChars (dedent (offlineRawText preview)) =
      cs "[Offline Response]\nUnable to reach the configured LLM provider. Please verify that an API key\nis available (set OPENAI_API_KEY or LLM_API_KEY). Last prompt line:\n\"" ++ preview ++ cs "...\"" := by
  have hnl5 : '\n' ∉ cs "            \"" ++ preview ++ cs "...\"" := by
    intro hm
    rcases List.mem_append.mp hm with h | h
    · rcases List.mem_append.mp h with h1 | h1
      · exact absurd h1 (by decide)
      · exact hnp h1
    · exact absurd h (by decide)
  have hsplit : splitOnNl (offlineRawText preview) =
      [ [], cs "            [Offline Response]", cs "            Unable to reach the configured LLM provider. Please verify that an API key", cs "            is available (set OPENAI_API_KEY or LLM_API_KEY). Last prompt line:",
        cs "            \"" ++ preview ++ cs "...\"", cs "            " ] := by
    refine splitOnNl_joinSep _ ?_ (by simp)
    intro l hl
    simp only [List.mem_cons, List.not_mem_nil, or_false] at hl
    rcases hl with rfl|rfl|rfl|rfl|rfl|rfl
    · simp
    · decide
    · decide
    · decide
    · exact hnl5
    · decide
  have hn5 : normWsLine (cs "            \"" ++ preview ++ cs "...\"")
      = cs "            \"" ++ preview ++ cs "...\"" :=
    normWsLine_of_mem
      (List.mem_append_left _ (List.mem_append_left preview
        (by decide : '\"' ∈ cs "            \""))) (by decide)
  have hmap : (splitOnNl (offlineRawText preview)).map normWsLine =
      [ [], cs "            [Offline Response]", cs "            Unable to reach the configured LLM provider. Please verify that an API key", cs "            is available (set OPENAI_API_KEY or LLM_API_KEY). Last prompt line:",
        cs "            \"" ++ preview ++ cs "...\"", [] ] := by
    rw [hsplit]
    simp only [List.map_cons, List.map_nil]
    rw [hn5]
    rw [show normWsLine [] = [] from by decide]
    rw [show normWsLine (cs "            [Offline Response]") = cs "            [Offline Response]" from by decide]
    rw [show normWsLine (cs "            Unable to reach the configured LLM provider. Please verify that an API key") = cs "            Unable to reach the configured LLM provider. Please verify that an API key" from by decide]
    rw [show normWsLine (cs "            is available (set OPENAI_API_KEY or LLM_API_KEY). Last prompt line:") = cs "            is available (set OPENAI_API_KEY or LLM_API_KEY). Last prompt line:" from by decide]
    rw [show normWsLine (cs "            ") = [] from by decide]
  have hi5 : lineIndent (cs "            \"" ++ preview ++ cs "...\"")
      = some (cs "            ") := by
    rw [List.append_assoc]
    rw [lineIndent_append _ _ (by decide)]
    decide
  have hindents :
      ([ [], cs "            [Offline Response]", cs "            Unable to reach the configured LLM provider. Please verify that an API key", cs "            is available (set OPENAI_API_KEY or LLM_API_KEY). Last prompt line:",
        cs "            \"" ++ preview ++ cs "...\"", [] ]).filterMap lineIndent =
      [ cs "            ", cs "            ", cs "            ", cs "            " ] := by
    simp only [List.filterMap_cons, List.filterMap_nil]
    rw [hi5]
    rw [show lineIndent ([] : List Char) = none from by decide]
    rw [show lineIndent (cs "            [Offline Response]") = some (cs "            ") from by decide]
    rw [show lineIndent (cs "            Unable to reach the configured LLM provider. Please verify that an API key") = some (cs "            ") from by decide]
    rw [show lineIndent (cs "            is available (set OPENAI_API_KEY or LLM_API_KEY). Last prompt line:") = some (cs "            ") from by decide]
  have hr5 : removeMargin (cs "            ") (cs "            \"" ++ preview ++ cs "...\"")
      = cs "\"" ++ preview ++ cs "...\"" := by
    rw [show cs "            \"" = cs "            " ++ cs "\"" from by decide]
    rw [List.append_assoc, List.append_assoc]
    rw [removeMargin_append]
    simp [List.append_assoc]
  have hdedent : dedent (offlineRawText preview) =
      joinSep '\n'
        [ [], cs "[Offline Response]", cs "Unable to reach the configured LLM provider. Please verify that an API key", cs "is available (set OPENAI_API_KEY or LLM_API_KEY). Last prompt line:",
          cs "\"" ++ preview ++ cs "...\"", [] ] := by
    rw [dedent_eq_of (offlineRawText preview) _ (cs "            ") hmap
      (by rw [hindents]; decide) (by decide)]
    simp only [List.map_cons, List.map_nil]
    rw [hr5]
    rw [show removeMargin (cs "            ") [] = [] from by decide]
    rw [show removeMargin (cs "            ") (cs "            [Offline Response]") = cs "[Offline Response]" from by decide]
    rw [show removeMargin (cs "            ") (cs "            Unable to reach the configured LLM provider. Please verify that an API key") = cs "Unable to reach the configured LLM provider. Please verify that an API key" from by decide]
    rw [show removeMargin (cs "            ") (cs "            is available (set OPENAI_API_KEY or LLM_API_KEY). Last prompt line:") = cs "is available (set OPENAI_API_KEY or LLM_API_KEY). Last prompt line:" from by decide]
  have hjoin : dedent (offlineRawText preview) =
      '\n' :: (cs "[Offline Response]\nUnable to reach the configured LLM provider. Please verify that an API key\nis available (set OPENAI_API_KEY or LLM_API_KEY). Last prompt line:\n\"" ++ preview ++ cs "...\"" ++ ['\n']) := by
    rw [hdedent]
    rw [show cs "[Offline Response]\nUnable to reach the configured LLM provider. Please verify that an API key\nis available (set OPENAI_API_KEY or LLM_API_KEY). Last prompt line:\n\"" = cs "[Offline Response]" ++ '\n' :: (cs "Unable to reach the configured LLM provider. Please verify that an API key" ++ '\n' :: (cs "is available (set OPENAI_API_KEY or LLM_API_KEY). Last prompt line:" ++ '\n' :: cs "\"")) from by decide]
    simp only [joinSep, List.nil_append, List.cons_append, List.append_assoc,
      List.append_nil, List.singleton_append]
  rw [hjoin]
  rw [stripChars_wrapped (cs "[Offline Response]\nUnable to reach the configured LLM provider. Please verify that an API key\nis available (set OPENAI_API_KEY or LLM_API_KEY). Last prompt line:\n\"") (cs "...\"") preview
    (by decide) (by decide) (by decide) (by decide)]

/-- `_offline_response` when the prompt has a last line. -/
theorem offlineResponse_eq (prompt lastLine : List Char)
    (hlast : (pySplitlines prompt).getLast? = some lastLine) :
    offlineResponse prompt =
      some (cs "[Offline Response]\nUnable to reach the configured LLM provider. Please verify that an API key\nis available (set OPENAI_API_KEY or LLM_API_KEY). Last prompt line:\n\"" ++ lastLine.take 120 ++ cs "...\"") := by
  have hmem : lastLine ∈ pySplitlines prompt := List.mem_of_mem_getLast? hlast
  have hnp : '\n' ∉ lastLine.take 120 := by
    intro hm
    have hml : '\n' ∈ lastLine := (List.take_sublist 120 lastLine).subset hm
    have := pySplitlines_no_boundary prompt lastLine hmem '\n' hml
    rw [show isLineBoundary '\n' = true from by decide] at this
    cases this
  unfold offlineResponse
  rw [hlast]
  show some (stripChars (dedent (offlineRawText (lastLine.take 120)))) = _
  rw [offlineText_eq (lastLine.take 120) hnp]

/-! Claim C10. -/

/-- C10: with an unconfigured client, `generate_response` on the empty prompt
propagates the `IndexError` from `_offline_response` (modelled `none`), and
returns a string for every prompt with at least one line. -/
theorem c10_empty_prompt_raises (c : LLMClient) (avail : Bool)
    (provider : ProviderOutcome) (hconf : isConfigured c avail = false) :
    generateResponse c avail provider [] = none ∧
    (∀ prompt : List Char, pySplitlines prompt ≠ [] →
      ∃ res, generateResponse c avail provider prompt = some res) := by
  constructor
  · simp [generateResponse, hconf, offlineResponse, pySplitlines]
  · intro prompt hne
    cases hl : (pySplitlines prompt).getLast? with
    | none =>
      rw [List.getLast?_eq_none_iff] at hl
      exact absurd hl hne
    | some lastLine =>
      refine ⟨cs "[Offline Response]\nUnable to reach the configured LLM provider. Please verify that an API key\nis available (set OPENAI_API_KEY or LLM_API_KEY). Last prompt line:\n\"" ++ lastLine.take 120 ++ cs "...\"", ?_⟩
      have hoff := offlineResponse_eq prompt lastLine hl
      simp [generateResponse, hconf, hoff]

/-- Witness for C10 at a concrete unconfigured client. -/
theorem c10_empty_prompt_raises_witness :
    isConfigured
        { model := cs "gpt-4o-mini", api_key := none
          api_base := none, temperature := TempValue.ofNumber (1/5) } true = false ∧
    generateResponse
        { model := cs "gpt-4o-mini", api_key := none
          api_base := none, temperature := TempValue.ofNumber (1/5) } true
        (.success []) [] = none :=
  ⟨by decide, (c10_empty_prompt_raises _ _ _ (by decide)).1⟩

/-! Claim C3. -/

/-- C3 (amended): for every unconfigured client and every prompt with at least
one line, `generate_response` ignores the provider, and returns a string that
begins with `[Offline Response]` and contains the last prompt line truncated
to at most 120 characters followed by an ellipsis. -/
theorem c3_offline_response (c : LLMClient) (avail : Bool)
    (provider provider2 : ProviderOutcome) (prompt lastLine : List Char)
    (hconf : isConfigured c avail = false)
    (hlast : (pySplitlines prompt).getLast? = some lastLine) :
    generateResponse c avail provider prompt
        = generateResponse c avail provider2 prompt ∧
    ∃ res, generateResponse c avail provider prompt = some res ∧
      cs "[Offline Response]" <+: res ∧
      (lastLine.take 120 ++ cs "...") <:+: res ∧
      (lastLine.take 120).length ≤ 120 := by
  have hoff := offlineResponse_eq prompt lastLine hlast
  constructor
  · simp [generateResponse, hconf]
  · refine ⟨cs "[Offline Response]\nUnable to reach the configured LLM provider. Please verify that an API key\nis available (set OPENAI_API_KEY or LLM_API_KEY). Last prompt line:\n\"" ++ lastLine.take 120 ++ cs "...\"", ?_, ?_, ?_, ?_⟩
    · simp [generateResponse, hconf, hoff]
    · refine ⟨cs "\nUnable to reach the configured LLM provider. Please verify that an API key\nis available (set OPENAI_API_KEY or LLM_API_KEY). Last prompt line:\n\"" ++ lastLine.take 120 ++ cs "...\"", ?_⟩
      rw [show cs "[Offline Response]\nUnable to reach the configured LLM provider. Please verify that an API key\nis available (set OPENAI_API_KEY or LLM_API_KEY). Last prompt line:\n\"" = cs "[Offline Response]" ++ cs "\nUnable to reach the configured LLM provider. Please verify that an API key\nis available (set OPENAI_API_KEY or LLM_API_KEY). Last prompt line:\n\"" from by decide]
      simp [List.append_assoc]
    · refine ⟨cs "[Offline Response]\nUnable to reach the configured LLM provider. Please verify that an API key\nis available (set OPENAI_API_KEY or LLM_API_KEY). Last prompt line:\n\"", ['\"'], ?_⟩
      rw [show cs "...\"" = cs "..." ++ ['\"'] from by decide]
      simp [List.append_assoc]
    · rw [List.length_take]
      exact min_le_left _ _

/-- C3 as stated (for *every* prompt string) is false: on the empty prompt an
unconfigured client raises out of `_offline_response` (modelled `none`)
instead of returning an `[Offline Response]` string. -/
theorem c3_counterexample :
    generateResponse
        { model := cs "gpt-4o-mini", api_key := none
          api_base := none, temperature := TempValue.ofNumber (1/5) } true
        (.success []) (cs "") = none := by decide

/-- Witness for C3 at a concrete unconfigured client and one-line prompt. -/
theorem c3_offline_response_witness :
    isConfigured
        { model := cs "gpt-4o-mini", api_key := none
          api_base := none, temperature := TempValue.ofNumber (1/5) } true = false ∧
    (pySplitlines (cs "What is NLP?")).getLast? = some (cs "What is NLP?") ∧
    ∃ res,
      generateResponse
          { model := cs "gpt-4o-mini", api_key := none
            api_base := none, temperature := TempValue.ofNumber (1/5) } true
          (.success []) (cs "What is NLP?") = some res ∧
      cs "[Offline Response]" <+: res ∧
      ((cs "What is NLP?").take 120 ++ cs "...") <:+: res ∧
      ((cs "What is NLP?").take 120).length ≤ 120 :=
  ⟨by decide, by decide,
    (c3_offline_response _ true (.success []) (.failure (cs "x")) _ _
      (by decide) (by decide)).2⟩

/-! Claim C8. -/

/-- Field contents of a returned `answer_question` bundle. -/
theorem answerQuestion_fields (c : LLMClient) (avail : Bool)
    (provider : ProviderOutcome) (q : List Char) (r : AnswerResult)
    (h : answerQuestion c avail provider q = some r) :
    r.original_question = stripChars q ∧
    r.processed_question = (preprocess q).processed_text ∧
    r.tokens = (preprocess q).tokens ∧
    r.prompt = buildPrompt (preprocess q) ∧
    (stripChars q = q → r.original_question = q) := by
  simp only [answerQuestion] at h
  cases hg : generateResponse c avail provider (buildPrompt (preprocess q)) with
  | none =>
    rw [hg] at h
    cases h
  | some a =>
    rw [hg] at h
    rw [Option.map_some'] at h
    obtain rfl := Option.some.inj h
    exact ⟨rfl, rfl, rfl, rfl, fun hq => hq⟩

/-- C8 (amended): whenever `answer_question` returns, the bundle's
original-question field holds the *whitespace-stripped* question (equal to the
raw question exactly when that is already stripped), alongside the normalized
question, token list, prompt and answer. -/
theorem c8_answer_bundle (c : LLMClient) (avail : Bool)
    (provider : ProviderOutcome) (q : List Char) (r : AnswerResult)
    (h : answerQuestion c avail provider q = some r) :
    r.original_question = stripChars q ∧
    r.processed_question = (preprocess q).processed_text ∧
    r.tokens = (preprocess q).tokens ∧
    r.prompt = buildPrompt (preprocess q) ∧
    (stripChars q = q → r.original_question = q) :=
  answerQuestion_fields c avail provider q r h

/-- C8 as stated is false: for the raw question `" hi"` (leading space) the
returned original-question field holds the stripped `"hi"`, not the raw
question unchanged. -/
theorem c8_counterexample :
    (answerQuestion
        { model := cs "m", api_key := some (cs "k")
          api_base := none, temperature := TempValue.ofNumber (1/5) } true
        (.success [some (cs "ok")]) (cs " hi")).map AnswerResult.original_question
      = some (cs "hi") ∧
    (answerQuestion
        { model := cs "m", api_key := some (cs "k")
          api_base := none, temperature := TempValue.ofNumber (1/5) } true
        (.success [some (cs "ok")]) (cs " hi")).map AnswerResult.original_question
      ≠ some (cs " hi") :=
  ⟨by decide, by decide⟩

/-- Witness for C8 at a concrete configured client and question. -/
theorem c8_answer_bundle_witness :
    (answerQuestion
        { model := cs "m", api_key := some (cs "k")
          api_base := none, temperature := TempValue.ofNumber (1/5) } true
        (.success [some (cs "ok")]) (cs "hi")).map AnswerResult.original_question
      = some (stripChars (cs "hi")) := by
  cases hg : answerQuestion
      { model := cs "m", api_key := some (cs "k")
        api_base := none, temperature := TempValue.ofNumber (1/5) } true
      (.success [some (cs "ok")]) (cs "hi") with
  | none => exact absurd hg (by decide)
  | some r =>
    rw [Option.map_some']
    rw [(c8_answer_bundle _ _ _ _ r hg).1]


/-! Claim C9: the JSON endpoint. -/

/-- A member of a piece survives into the join. -/
theorem mem_joinSep_of_mem {sep : Char} {ts : List (List Char)} {l : List Char}
    {c : Char} (hl : l ∈ ts) (hc : c ∈ l) : c ∈ joinSep sep ts := by
  induction ts with
  | nil => cases hl
  | cons t ts ih =>
    cases ts with
    | nil =>
      rcases List.mem_singleton.mp hl with rfl
      exact hc
    | cons t2 ts2 =>
      rw [joinSep_cons_cons]
      rcases List.mem_cons.mp hl with rfl | h
      · exact List.mem_append_left _ hc
      · exact List.mem_append_right _ (List.mem_cons_of_mem _ (ih h))

/-- `splitOnNl` always yields at least one line. -/
theorem splitOnNl_ne_nil (l : List Char) : splitOnNl l ≠ [] := by
  cases l with
  | nil => simp [splitOnNl]
  | cons c rest =>
    by_cases hc : c = '\n'
    · simp [splitOnNl, hc]
    · rw [show splitOnNl (c :: rest) = consHead c (splitOnNl rest) by
        simp [splitOnNl, hc]]
      cases splitOnNl rest with
      | nil => simp [consHead]
      | cons p ps => simp [consHead]

/-- A non-newline member of a text lives on some line. -/
theorem mem_splitOnNl_of_mem {text : List Char} {c : Char} (hc : c ∈ text)
    (hnl : ¬ c = '\n') : ∃ l ∈ splitOnNl text, c ∈ l := by
  induction text with
  | nil => cases hc
  | cons a rest ih =>
    by_cases ha : a = '\n'
    · rw [show splitOnNl (a :: rest) = [] :: splitOnNl rest by simp [splitOnNl, ha]]
      rcases List.mem_cons.mp hc with rfl | h
      · exact absurd ha hnl
      · obtain ⟨l, hl, hcl⟩ := ih h
        exact ⟨l, List.mem_cons_of_mem _ hl, hcl⟩
    · rw [show splitOnNl (a :: rest) = consHead a (splitOnNl rest) by
        simp [splitOnNl, ha]]
      rcases List.mem_cons.mp hc with rfl | h
      · cases hX : splitOnNl rest with
        | nil => exact absurd hX (splitOnNl_ne_nil rest)
        | cons p ps =>
          exact ⟨c :: p, List.mem_cons_self _ _, List.mem_cons_self _ _⟩
      · obtain ⟨l, hl, hcl⟩ := ih h
        cases hX : splitOnNl rest with
        | nil => exact absurd hX (splitOnNl_ne_nil rest)
        | cons p ps =>
          rw [hX] at hl
          rcases List.mem_cons.mp hl with rfl | h2
          · exact ⟨a :: l, List.mem_cons_self _ _, List.mem_cons_of_mem _ hcl⟩
          · exact ⟨l, List.mem_cons_of_mem _ h2, hcl⟩

/-- The common prefix keeps only characters of its first argument. -/
theorem mem_commonPre {a b : List Char} {c : Char} (hc : c ∈ commonPre a b) :
    c ∈ a := by
  induction a generalizing b with
  | nil => rw [show commonPre [] b = [] by cases b <;> rfl] at hc; cases hc
  | cons x xs ih =>
    cases b with
    | nil => cases hc
    | cons y ys =>
      by_cases hxy : x = y
      · rw [show commonPre (x :: xs) (y :: ys) = x :: commonPre xs ys by
          simp [commonPre, hxy]] at hc
        rcases List.mem_cons.mp hc with rfl | h
        · exact List.mem_cons_self _ _
        · exact List.mem_cons_of_mem _ (ih h)
      · rw [show commonPre (x :: xs) (y :: ys) = [] by simp [commonPre, hxy]] at hc
        cases hc

/-- The computed margin consists of `[ \t]` characters. -/
theorem computeMargin_all_indent (indents : List (List Char))
    (h : ∀ i ∈ indents, ∀ c ∈ i, isIndentChar c = true) :
    ∀ m, computeMargin indents = some m → ∀ c ∈ m, isIndentChar c = true := by
  suffices haux : ∀ (inds : List (List Char)) (acc : Option (List Char)),
      (∀ i ∈ inds, ∀ c ∈ i, isIndentChar c = true) →
      (∀ m0, acc = some m0 → ∀ c ∈ m0, isIndentChar c = true) →
      ∀ m, inds.foldl
          (fun m i => match m with
            | none => some i
            | some m0 => some (commonPre m0 i)) acc = some m →
        ∀ c ∈ m, isIndentChar c = true by
    intro m hm
    exact haux indents none h (fun m0 h0 => by cases h0) m hm
  clear h indents
  intro inds
  induction inds with
  | nil =>
    intro acc hinds hacc m hm
    exact hacc m hm
  | cons i is ih =>
    intro acc hinds hacc m hm
    rw [List.foldl_cons] at hm
    refine ih _ (fun j hj => hinds j (List.mem_cons_of_mem _ hj)) ?_ m hm
    intro m0 h0
    cases acc with
    | none =>
      obtain rfl := Option.some.inj h0
      exact hinds i (List.mem_cons_self _ _)
    | some m1 =>
      obtain rfl := Option.some.inj h0
      intro c hc
      exact hacc m1 rfl c (mem_commonPre hc)

/-- Indent runs recorded by `lineIndent` are `[ \t]` characters. -/
theorem lineIndent_all_indent {l i : List Char} (h : lineIndent l = some i) :
    ∀ c ∈ i, isIndentChar c = true := by
  unfold lineIndent at h
  by_cases he : (l.dropWhile isIndentChar).isEmpty = true
  · rw [if_pos he] at h; cases h
  · rw [if_neg he] at h
    obtain rfl := Option.some.inj h
    intro c hc
    exact List.mem_takeWhile_imp hc

/-- A non-indent member of a line survives margin removal when the margin is
all-indent. -/
theorem mem_removeMargin {m l : List Char} {c : Char} (hc : c ∈ l)
    (hcn : isIndentChar c = false)
    (hm : ∀ d ∈ m, isIndentChar d = true) : c ∈ removeMargin m l := by
  unfold removeMargin
  by_cases hp : m.isPrefixOf l = true
  · rw [if_pos hp]
    obtain ⟨t, rfl⟩ := List.isPrefixOf_iff_prefix.mp hp
    rw [List.drop_left]
    rcases List.mem_append.mp hc with h | h
    · rw [hm c h] at hcn; cases hcn
    · exact h
  · rw [if_neg hp]
    exact hc

/-- `dedent` when the margin computation yields nothing. -/
theorem dedent_eq_none (text : List Char) (lines : List (List Char))
    (h1 : (splitOnNl text).map normWsLine = lines)
    (h2 : computeMargin (lines.filterMap lineIndent) = none) :
    dedent text = joinSep '\n' lines := by
  unfold dedent
  simp only [h1]
  rw [h2]

/-- `dedent` when the margin computation yields the empty margin. -/
theorem dedent_eq_emptyMargin (text : List Char) (lines : List (List Char))
    (m : List Char) (h1 : (splitOnNl text).map normWsLine = lines)
    (h2 : computeMargin (lines.filterMap lineIndent) = some m)
    (h3 : m.isEmpty = true) :
    dedent text = joinSep '\n' lines := by
  unfold dedent
  simp only [h1]
  rw [h2]
  simp [h3]

/-- An indent character is Python whitespace. -/
theorem pySpace_of_indent {c : Char} (h : isIndentChar c = true) :
    isPySpace c = true := by
  simp only [isIndentChar, Bool.or_eq_true, decide_eq_true_eq] at h
  simp only [isPySpace, Bool.or_eq_true, Bool.and_eq_true, decide_eq_true_eq]
  omega

/-- A non-whitespace character of a text survives `dedent`. -/
theorem mem_dedent {text : List Char} {c : Char} (hc : c ∈ text)
    (hns : isPySpace c = false) : c ∈ dedent text := by
  have hni : isIndentChar c = false := by
    cases hi : isIndentChar c with
    | false => rfl
    | true => rw [pySpace_of_indent hi] at hns; cases hns
  have hnnl : ¬ c = '\n' := by
    intro h
    subst h
    cases hns
  obtain ⟨l, hl, hcl⟩ := mem_splitOnNl_of_mem hc hnnl
  have hlm : l ∈ (splitOnNl text).map normWsLine := by
    have := List.mem_map_of_mem normWsLine hl
    rw [normWsLine_of_mem hcl hni] at this
    exact this
  have hmargin := computeMargin_all_indent
    (((splitOnNl text).map normWsLine).filterMap lineIndent)
    (by
      intro i hi
      obtain ⟨a, _, ha⟩ := List.mem_filterMap.mp hi
      exact lineIndent_all_indent ha)
  cases hm : computeMargin (((splitOnNl text).map normWsLine).filterMap lineIndent) with
  | none =>
    rw [dedent_eq_none text _ rfl hm]
    exact mem_joinSep_of_mem hlm hcl
  | some m =>
    by_cases he : m.isEmpty = true
    · rw [dedent_eq_emptyMargin text _ m rfl hm he]
      exact mem_joinSep_of_mem hlm hcl
    · rw [dedent_eq_of text _ m rfl hm (by simpa using he)]
      exact mem_joinSep_of_mem (List.mem_map_of_mem (removeMargin m) hlm)
        (mem_removeMargin hcl hni (hmargin m hm))

/-- The built prompt always contains the colon of `Answer:`, so it is never
empty and always has a line. -/
theorem buildPrompt_ne_nil (pq : ProcessedQuestion) :
    buildPrompt pq ≠ [] := by
  have hcolon : ':' ∈ promptRawText pq.original pq.processed_text := by
    apply mem_joinSep_of_mem (l := cs "            Answer:")
    · simp [promptRawText]
    · decide
  have h2 : (':' : Char) ∈ dedent (promptRawText pq.original pq.processed_text) :=
    mem_dedent hcolon (by decide)
  have h3 : (':' : Char) ∈ buildPrompt pq :=
    mem_stripChars_of_mem h2 (by decide)
  exact List.ne_nil_of_mem h3

/-- `generate_response` returns a string whenever the prompt has a line. -/
theorem generateResponse_total (c : LLMClient) (avail : Bool)
    (provider : ProviderOutcome) (prompt : List Char)
    (h : pySplitlines prompt ≠ []) :
    ∃ res, generateResponse c avail provider prompt = some res := by
  obtain ⟨lastLine, hl⟩ : ∃ lastLine, (pySplitlines prompt).getLast? = some lastLine := by
    cases hg : (pySplitlines prompt).getLast? with
    | none => exact absurd (List.getLast?_eq_none_iff.mp hg) h
    | some lastLine => exact ⟨lastLine, rfl⟩
  have hoff := offlineResponse_eq prompt lastLine hl
  by_cases hconf : isConfigured c avail = true
  · cases provider with
    | failure msg =>
      have heq : generateResponse c avail (.failure msg) prompt
          = some (cs "[LLM Error] Unable to fetch response: " ++ msg) := by
        simp [generateResponse, hconf]
      exact ⟨_, heq⟩
    | success blocks =>
      by_cases hj : (stripChars (joinSep '\n' (textChunks blocks))).isEmpty = true
      · have heq : generateResponse c avail (.success blocks) prompt
            = offlineResponse prompt := by
          simp only [generateResponse, hconf, Bool.not_true, Bool.false_eq_true,
            if_false, if_pos hj]
          rw [hoff]
        rw [hoff] at heq
        exact ⟨_, heq⟩
      · have heq : generateResponse c avail (.success blocks) prompt
            = some (stripChars (joinSep '\n' (textChunks blocks))) := by
          simp only [generateResponse, hconf, Bool.not_true, Bool.false_eq_true,
            if_false, if_neg hj]
        exact ⟨_, heq⟩
  · have hconf2 : isConfigured c avail = false := by
      cases hcv : isConfigured c avail with
      | false => rfl
      | true => exact absurd hcv hconf
    have heq : generateResponse c avail provider prompt = offlineResponse prompt := by
      simp [generateResponse, hconf2]
    rw [hoff] at heq
    exact ⟨_, heq⟩

/-- `answer_question` returns on every question. -/
theorem answerQuestion_total (c : LLMClient) (avail : Bool)
    (provider : ProviderOutcome) (q : List Char) :
    ∃ r, answerQuestion c avail provider q = some r := by
  obtain ⟨res, hres⟩ := generateResponse_total c avail provider
    (buildPrompt (preprocess q))
    (pySplitlines_ne_nil (buildPrompt_ne_nil (preprocess q)))
  refine ⟨{ original_question := (preprocess q).original
            processed_question := (preprocess q).processed_text
            tokens := (preprocess q).tokens
            prompt := buildPrompt (preprocess q)
            answer := res }, ?_⟩
  simp only [answerQuestion]
  rw [hres, Option.map_some']

/-- C9 (amended): for request bodies whose `question` field is absent or a
string, `/api/ask` returns 400 with the fixed error exactly when the question
is missing, empty or blank after stripping, and otherwise returns the stripped
question, the normalized question, the tokens, and an answer. -/
theorem c9_api_ask (c : LLMClient) (avail : Bool) (provider : ProviderOutcome)
    (kvs : List (List Char × PyVal)) :
    (dictGet kvs (cs "question") = none →
      apiAsk c avail provider (some (.pydict kvs)) = some .badRequest) ∧
    (∀ s, dictGet kvs (cs "question") = some (.pystr s) →
      (stripChars s = [] →
        apiAsk c avail provider (some (.pydict kvs)) = some .badRequest) ∧
      (stripChars s ≠ [] →
        ∃ a, apiAsk c avail provider (some (.pydict kvs)) =
          some (.ok (stripChars s) (preprocess (stripChars s)).processed_text
            (preprocess (stripChars s)).tokens a))) := by
  have hdata : (if truthy (.pydict kvs) then PyVal.pydict kvs else .pydict [])
      = .pydict kvs := by
    by_cases hk : kvs.isEmpty = true
    · rw [if_neg (by simp [truthy, hk])]
      rw [show kvs = [] from by simpa using hk]
    · rw [if_pos (by simp [truthy, hk])]
  constructor
  · intro hq
    simp only [apiAsk, hdata, hq]
    rfl
  · intro s hq
    constructor
    · intro hs
      simp only [apiAsk, hdata, hq]
      by_cases hse : s.isEmpty = true
      · rw [if_neg (by simp [truthy, hse])]
        rfl
      · rw [if_pos (by simp [truthy, hse])]
        show (if (stripChars s).isEmpty then some ApiResponse.badRequest else _)
          = some ApiResponse.badRequest
        rw [if_pos (by simp [hs])]
    · intro hs
      have hse : s.isEmpty = false := by
        cases hsv : s.isEmpty with
        | false => rfl
        | true =>
          rw [show s = [] from by simpa using hsv] at hs
          exact absurd rfl hs
      obtain ⟨r, hr⟩ := answerQuestion_total c avail provider (stripChars s)
      obtain ⟨-, hpq, htk, -, -⟩ :=
        answerQuestion_fields c avail provider (stripChars s) r hr
      refine ⟨r.answer, ?_⟩
      simp only [apiAsk, hdata, hq]
      rw [if_pos (by simp [truthy, hse])]
      show (if (stripChars s).isEmpty then some ApiResponse.badRequest
        else match answerQuestion c avail provider (stripChars s) with
          | some r => some (.ok (stripChars s) r.processed_question r.tokens r.answer)
          | none => none) = _
      rw [if_neg (by simpa using hs)]
      rw [hr]
      show some (ApiResponse.ok (stripChars s) r.processed_question r.tokens r.answer) = _
      rw [hpq, htk]

/-- C9 as stated (for *every* JSON body) is false: a truthy non-string
`question` value such as the number 5 makes the handler call `.strip()` on a
non-string, raising (HTTP 500, modelled `none`) instead of returning 400 or
the four fields. -/
theorem c9_counterexample :
    apiAsk
        { model := cs "m", api_key := none
          api_base := none, temperature := TempValue.ofNumber (1/5) } false
        (.success []) (some (.pydict [(cs "question", PyVal.pynum 5)])) = none := by
  rfl

/-- Witness for C9 at a concrete body whose question is the blank-padded
string `" hi "`. -/
theorem c9_api_ask_witness :
    dictGet [(cs "question", PyVal.pystr (cs " hi "))] (cs "question")
        = some (.pystr (cs " hi ")) ∧
    stripChars (cs " hi ") ≠ [] ∧
    ∃ a, apiAsk
        { model := cs "m", api_key := some (cs "k")
          api_base := none, temperature := TempValue.ofNumber (1/5) } true
        (.success [some (cs "ok")])
        (some (.pydict [(cs "question", PyVal.pystr (cs " hi "))])) =
      some (.ok (stripChars (cs " hi "))
        (preprocess (stripChars (cs " hi "))).processed_text
        (preprocess (stripChars (cs " hi "))).tokens a) :=
  ⟨rfl, by decide,
    ((c9_api_ask
        { model := cs "m", api_key := some (cs "k")
          api_base := none, temperature := TempValue.ofNumber (1/5) } true
        (.success [some (cs "ok")])
        [(cs "question", PyVal.pystr (cs " hi "))]).2 (cs " hi ") rfl).2 (by decide)⟩

end NLPQA
